import Mathlib

/-!
Shallow embedding of the permission-checked hierarchical store of
`src/store.ts` (class `Store`, the module-level permission registry
`restrictedMap`, and the resolver `findPermission`).

Modelling choices:
  * JS values that a store can hold (`StoreValue`) become the inductive
    `SVal`.  Stores have identity (they are mutable objects that may be
    shared or form cycles), so a store value is a reference `SVal.store id`
    into an explicit heap `Heap` mapping ids to `StoreObj` records.
  * A zero-argument function value (`() => StoreResult`) is embedded as
    `SVal.fn r` carrying the `StoreResult` it produces when invoked; the
    test-suite uses `lazy`, whose wrapper returns the same result on every
    invocation, so a constant result is the faithful shallow model.
  * A JS `Map` becomes an insertion-ordered association list; `Map.set`
    replaces in place or appends (`assocSet`), `Map.get` is `assocGet`.
  * `instance.constructor` and the prototype walk of `findPermission`
    become the explicit list `StoreObj.chain` of class names ordered
    most-derived first.  For a direct `Store` instance the chain is
    `["Store", ""]` (the trailing `""` is `Function.prototype.name`,
    which ends the JS loop); for a subclass it is e.g.
    `["AdminStore", "Store", ""]`.
  * Class fields declared by subclasses (`name`, `user`, ...) are the
    association list `StoreObj.fields`; `firstKey in this` is membership
    there and `this[firstKey]` its value.  The built-in properties
    (`data`, `defaultPolicy`, the methods) are outside the JSON value
    model and are not represented.
  * JS exceptions become an `Option` result paired with the heap at the
    moment of the throw, since mutations performed before a throw persist.
  * `path.split(':')` is `splitColon`; at a recursive call the source
    re-joins and re-splits the remaining segments
    (`childKeys.join(':')` then `split(':')`), which is the identity on
    lists of colon-free segments, so the embedding passes the segment
    list `rest` directly.
-/

namespace StoreSpec

/-- The permission levels of `store.ts` (`type Permission`). -/
inductive Permission where
  | r | w | rw | none
deriving DecidableEq

/-- The process-wide registry `restrictedMap`: a map from built keys to
permissions, as an insertion-ordered association list. -/
abbrev Reg := List (String × Permission)

/-- `Map.get` on the registry. -/
def regGet (reg : Reg) (k : String) : Option Permission :=
  (reg.find? (fun e => e.1 == k)).map (fun e => e.2)

/-- `readPermissions = ['r', 'rw']`. -/
def readPermissions : List Permission := [Permission.r, Permission.rw]

/-- `writePermissions = ['w', 'rw']`. -/
def writePermissions : List Permission := [Permission.w, Permission.rw]

/-- `buildKey = (store, key) => `${store}:${key}``. -/
def buildKey (store key : String) : String := store ++ ":" ++ key

/-- The resolver `findPermission` of `store.ts` (lines 26-39): walk the
constructor chain most-derived first; skip out when the name is empty or
`"Object"`; after a miss, if the next prototype is the root `Store`
class, return the registry entry for `Store` directly. -/
def findPermission (reg : Reg) (chain : List String) (key : String) :
    Option Permission :=
  match chain with
  | [] => Option.none
  | c :: rest =>
    if c = "" ∨ c = "Object" then Option.none
    else
      match regGet reg (buildKey c key) with
      | some p => some p
      | Option.none =>
        if rest.head? = some "Store" then regGet reg (buildKey "Store" key)
        else findPermission reg rest key

/-- JSON primitives (`JSONPrimitive`); numbers are embedded as `Int`. -/
inductive Prim where
  | str (s : String)
  | int (n : Int)
  | bool (b : Bool)
  | null
deriving DecidableEq

/-- JSON values (`JSONValue`). -/
inductive JVal where
  | prim (p : Prim)
  | arr (elems : List JVal)
  | obj (entries : List (String × JVal))

mutual

/-- Decidable equality of JSON values. -/
def JVal.decEq : (a b : JVal) → Decidable (a = b)
  | .prim p, .prim q =>
    match instDecidableEqPrim p q with
    | isTrue h => isTrue (congrArg JVal.prim h)
    | isFalse h => isFalse (fun hh => h (JVal.prim.inj hh))
  | .prim _, .arr _ => isFalse (fun h => JVal.noConfusion h)
  | .prim _, .obj _ => isFalse (fun h => JVal.noConfusion h)
  | .arr _, .prim _ => isFalse (fun h => JVal.noConfusion h)
  | .arr a, .arr b =>
    match JVal.decEqList a b with
    | isTrue h => isTrue (congrArg JVal.arr h)
    | isFalse h => isFalse (fun hh => h (JVal.arr.inj hh))
  | .arr _, .obj _ => isFalse (fun h => JVal.noConfusion h)
  | .obj _, .prim _ => isFalse (fun h => JVal.noConfusion h)
  | .obj _, .arr _ => isFalse (fun h => JVal.noConfusion h)
  | .obj a, .obj b =>
    match JVal.decEqEnts a b with
    | isTrue h => isTrue (congrArg JVal.obj h)
    | isFalse h => isFalse (fun hh => h (JVal.obj.inj hh))

/-- Decidable equality of JSON value lists. -/
def JVal.decEqList : (a b : List JVal) → Decidable (a = b)
  | [], [] => isTrue rfl
  | [], _ :: _ => isFalse (fun h => List.noConfusion h)
  | _ :: _, [] => isFalse (fun h => List.noConfusion h)
  | x :: xs, y :: ys =>
    match JVal.decEq x y, JVal.decEqList xs ys with
    | isTrue h1, isTrue h2 => isTrue (by rw [h1, h2])
    | isFalse h1, _ => isFalse (fun h => h1 (List.cons.inj h).1)
    | isTrue _, isFalse h2 => isFalse (fun h => h2 (List.cons.inj h).2)

/-- Decidable equality of JSON object entry lists. -/
def JVal.decEqEnts : (a b : List (String × JVal)) → Decidable (a = b)
  | [], [] => isTrue rfl
  | [], _ :: _ => isFalse (fun h => List.noConfusion h)
  | _ :: _, [] => isFalse (fun h => List.noConfusion h)
  | (k, x) :: xs, (l, y) :: ys =>
    match String.decEq k l, JVal.decEq x y, JVal.decEqEnts xs ys with
    | isTrue h0, isTrue h1, isTrue h2 => isTrue (by rw [h0, h1, h2])
    | isFalse h0, _, _ =>
      isFalse (fun h => h0 (congrArg Prod.fst (List.cons.inj h).1))
    | isTrue _, isFalse h1, _ =>
      isFalse (fun h => h1 (congrArg Prod.snd (List.cons.inj h).1))
    | isTrue _, isTrue _, isFalse h2 =>
      isFalse (fun h => h2 (List.cons.inj h).2)

end

instance : DecidableEq JVal := JVal.decEq

/-- A `StoreResult`: `Store | JSONPrimitive | undefined`. -/
inductive SRes where
  | store (id : Nat)
  | prim (p : Prim)
  | undefined
deriving DecidableEq

/-- A `StoreValue`: `JSONObject | JSONArray | StoreResult | (() => StoreResult)`.
`undefined` doubles as the absent-key result of `Map.get`. -/
inductive SVal where
  | prim (p : Prim)
  | arr (elems : List JVal)
  | obj (entries : List (String × JVal))
  | store (id : Nat)
  | fn (r : SRes)
  | undefined
deriving DecidableEq

/-- Embedding of a `StoreResult` into `SVal` (the result of invoking a
function value). -/
def SRes.toSVal : SRes → SVal
  | .store id => .store id
  | .prim p => .prim p
  | .undefined => .undefined

/-- JS truthiness of a primitive (`false`, `0`, `""`, `null` are falsy). -/
def Prim.truthy : Prim → Bool
  | .str s => s != ""
  | .int n => n != 0
  | .bool b => b
  | .null => false

/-- JS truthiness of a store value: objects, arrays, stores and functions
are truthy; `undefined` is falsy. -/
def SVal.truthy : SVal → Bool
  | .prim p => p.truthy
  | .undefined => false
  | _ => true

/-- Embedding a `JSONValue` (as produced by `Object.entries`) as a store
value when written directly. -/
def jvalToSVal : JVal → SVal
  | .prim p => .prim p
  | .arr a => .arr a
  | .obj o => .obj o

/-- One `Store` instance: its constructor chain (most-derived class name
first, ending with `"Store", ""`), its `defaultPolicy`, the class fields
the object exposes, and its `data` map. -/
structure StoreObj where
  chain : List String
  defaultPolicy : Permission
  fields : List (String × SVal)
  data : List (String × SVal)
deriving DecidableEq

/-- `Map.get` on an association list. -/
def assocGet (l : List (String × SVal)) (k : String) : Option SVal :=
  (l.find? (fun e => e.1 == k)).map (fun e => e.2)

/-- `Map.set` on an association list: replace in place when the key is
present (preserving insertion order), append otherwise. -/
def assocSet (l : List (String × SVal)) (k : String) (v : SVal) :
    List (String × SVal) :=
  if l.any (fun e => e.1 == k) then
    l.map (fun e => if e.1 == k then (k, v) else e)
  else l ++ [(k, v)]

/-- The heap of store objects: identity of a store is its id. -/
structure Heap where
  objs : List (Nat × StoreObj)
  next : Nat
deriving DecidableEq

def Heap.get (h : Heap) (i : Nat) : Option StoreObj :=
  (h.objs.find? (fun e => e.1 == i)).map (fun e => e.2)

def Heap.set (h : Heap) (i : Nat) (o : StoreObj) : Heap :=
  { h with objs := h.objs.map (fun e => if e.1 == i then (i, o) else e) }

/-- A freshly constructed `new Store()`: chain `["Store", ""]`, default
policy `rw`, no class fields, empty data. -/
def freshStoreObj : StoreObj :=
  { chain := ["Store", ""], defaultPolicy := Permission.rw,
    fields := [], data := [] }

/-- Allocate a `new Store()` in the heap, returning its id. -/
def Heap.alloc (h : Heap) : Heap × Nat :=
  ({ objs := h.objs ++ [(h.next, freshStoreObj)], next := h.next + 1 },
   h.next)

/-- `allowedToRead` of `store.ts` (lines 58-64). -/
def allowedToRead (reg : Reg) (obj : StoreObj) (key : String) : Bool :=
  match findPermission reg obj.chain key with
  | some p => readPermissions.contains p
  | Option.none => readPermissions.contains obj.defaultPolicy

/-- `allowedToWrite` of `store.ts` (lines 66-72). -/
def allowedToWrite (reg : Reg) (obj : StoreObj) (key : String) : Bool :=
  match findPermission reg obj.chain key with
  | some p => writePermissions.contains p
  | Option.none => writePermissions.contains obj.defaultPolicy

/-- JS `path.split(':')` over the characters of the path. -/
def splitColonChars : List Char → List Char → List String
  | [], acc => [String.mk acc.reverse]
  | c :: cs, acc =>
    if c = ':' then String.mk acc.reverse :: splitColonChars cs []
    else splitColonChars cs (c :: acc)

/-- JS `path.split(':')`: e.g. `"" ↦ [""]`, `"a:b" ↦ ["a","b"]`,
`"a:" ↦ ["a",""]`. -/
def splitColon (s : String) : List String := splitColonChars s.data []

/-- First-segment value resolution inside `Store.read` (lines 78-87):
look the key up in `data`; if the value is falsy and the object exposes a
class field of that name, take the field value and cache it into `data`;
finally, if the value is a function, invoke it. -/
def resolveKey (h : Heap) (sid : Nat) (obj : StoreObj) (k : String) :
    Heap × SVal :=
  let value := (assocGet obj.data k).getD SVal.undefined
  let step :=
    if value.truthy = false then
      match assocGet obj.fields k with
      | some fv =>
        (h.set sid { obj with data := assocSet obj.data k fv }, fv)
      | Option.none => (h, value)
    else (h, value)
  match step.2 with
  | .fn r => (step.1, r.toSVal)
  | v => (step.1, v)

/-- `Store.read` (lines 74-94) over the list of path segments.  The
result is the heap after the call (field-fallback caching mutates `data`)
and `Option.none` when the call throws. -/
def readSegs (reg : Reg) (h : Heap) (sid : Nat) (segs : List String) :
    Heap × Option SVal :=
  match h.get sid with
  | Option.none => (h, Option.none)
  | some obj =>
    match segs with
    | [] => (h, Option.none)
    | k :: rest =>
      if k = "" ∨ allowedToRead reg obj k = false then (h, Option.none)
      else
        let step := resolveKey h sid obj k
        match step.2, rest with
        | .store cid, _ :: _ => readSegs reg step.1 cid rest
        | _, _ => (step.1, some step.2)

mutual

/-- Size of a JSON value, used as the termination measure of the
mutually recursive write operations. -/
def jvalSize : JVal → Nat
  | .prim _ => 1
  | .arr _ => 1
  | .obj o => 1 + entsSize o

/-- Size of a JSON object entry list. -/
def entsSize : List (String × JVal) → Nat
  | [] => 0
  | (_, jv) :: rest => 1 + jvalSize jv + entsSize rest

end

/-- Size of a store value: only plain objects count, since only they make
`write` recurse into `writeEntries`. -/
def svalSize : SVal → Nat
  | .obj o => 1 + entsSize o
  | _ => 1

theorem jvalSize_pos (jv : JVal) : 1 ≤ jvalSize jv := by
  cases jv <;> simp [jvalSize]

theorem svalSize_jvalToSVal_le (jv : JVal) :
    svalSize (jvalToSVal jv) ≤ jvalSize jv := by
  cases jv <;> simp [jvalToSVal, svalSize, jvalSize]

mutual

/-- `Store.write` (lines 96-119) over the list of path segments.  With
more than one segment remaining the first segment is an intermediate
node: it is gated by `allowedToRead`, a non-Store current value is
replaced by a freshly allocated store, and the call recurses.  At the
final segment the key is gated by `allowedToWrite`; a plain-object value
is promoted to a new store populated by `writeEntries` before being
installed. -/
def writeSegs (reg : Reg) (h : Heap) (sid : Nat) (segs : List String)
    (v : SVal) : Heap × Option SVal :=
  match h.get sid with
  | Option.none => (h, Option.none)
  | some obj =>
    match segs with
    | [] => (h, Option.none)
    | k :: rest =>
      match rest with
      | r1 :: rs =>
        if k = "" ∨ allowedToRead reg obj k = false then (h, Option.none)
        else
          match readSegs reg h sid [k] with
          | (h1, Option.none) => (h1, Option.none)
          | (h1, some nested) =>
            match nested with
            | .store cid => writeSegs reg h1 cid (r1 :: rs) v
            | _ =>
              match (Heap.alloc h1).1.get sid with
              | Option.none => ((Heap.alloc h1).1, Option.none)
              | some obj1 =>
                writeSegs reg
                  ((Heap.alloc h1).1.set sid
                    { obj1 with
                      data := assocSet obj1.data k
                        (.store (Heap.alloc h1).2) })
                  (Heap.alloc h1).2 (r1 :: rs) v
      | [] =>
        if k = "" ∨ allowedToWrite reg obj k = false then (h, Option.none)
        else
          match v with
          | .obj o =>
            match writeEntriesList reg (Heap.alloc h).1 (Heap.alloc h).2 o with
            | (h2, some _) =>
              match h2.get sid with
              | Option.none => (h2, Option.none)
              | some obj1 =>
                (h2.set sid
                  { obj1 with
                    data := assocSet obj1.data k
                      (.store (Heap.alloc h).2) },
                 some (.store (Heap.alloc h).2))
            | (h2, Option.none) => (h2, Option.none)
          | _ =>
            (h.set sid { obj with data := assocSet obj.data k v }, some v)
termination_by (2 * svalSize v + 1, segs.length)
decreasing_by
  all_goals simp_wf
  all_goals first
    | (apply Prod.Lex.right
       try simp only [List.length_cons]
       omega)
    | (apply Prod.Lex.left
       simp only [svalSize]
       omega)

/-- `Store.writeEntries` (lines 121-133) over the entry list of a JSON
object: pairs are processed in declared order; a plain-object value gets
a freshly allocated child store installed via `write` and is recursively
bulk-written into it; any other value is written directly.  A failure
stops the iteration, leaving earlier pairs committed. -/
def writeEntriesList (reg : Reg) (h : Heap) (sid : Nat)
    (l : List (String × JVal)) : Heap × Option Unit :=
  match l with
  | [] => (h, some ())
  | (k, jv) :: rest =>
    match jv with
    | .obj o =>
      match writeSegs reg (Heap.alloc h).1 sid (splitColon k)
          (.store (Heap.alloc h).2) with
      | (h2, some _) =>
        match writeEntriesList reg h2 (Heap.alloc h).2 o with
        | (h3, some _) => writeEntriesList reg h3 sid rest
        | (h3, Option.none) => (h3, Option.none)
      | (h2, Option.none) => (h2, Option.none)
    | jvv =>
      match writeSegs reg h sid (splitColon k) (jvalToSVal jvv) with
      | (h2, some _) => writeEntriesList reg h2 sid rest
      | (h2, Option.none) => (h2, Option.none)
termination_by (2 * entsSize l, 0)
decreasing_by
  all_goals simp_wf
  all_goals apply Prod.Lex.left
  all_goals first
    | (simp only [entsSize, jvalSize, svalSize, jvalToSVal]
       omega)
    | (have hle := svalSize_jvalToSVal_le jvv
       have hpos := jvalSize_pos jvv
       simp only [entsSize, jvalSize, svalSize, jvalToSVal] at hle hpos ⊢
       omega)

end

/-- `Store.read` at the string level: split the path on `:` and run the
segment-level engine. -/
def Store.read (reg : Reg) (h : Heap) (sid : Nat) (path : String) :
    Heap × Option SVal :=
  readSegs reg h sid (splitColon path)

/-- `Store.write` at the string level. -/
def Store.write (reg : Reg) (h : Heap) (sid : Nat) (path : String)
    (v : SVal) : Heap × Option SVal :=
  writeSegs reg h sid (splitColon path) v

/-- `Store.writeEntries` at the string level. -/
def Store.writeEntries (reg : Reg) (h : Heap) (sid : Nat)
    (entries : List (String × JVal)) : Heap × Option Unit :=
  writeEntriesList reg h sid entries

/-- The whole mutable state of the program: the process-wide registry
`restrictedMap` plus the heap of store objects. -/
structure World where
  restrictedMap : Reg
  heap : Heap
deriving DecidableEq

/-- `Store.write` as a transition on the whole program state.  The body
of `write` in `store.ts` mutates only `data` maps of stores — it contains
no `restrictedMap.set` — so the registry component passes through. -/
def World.write (w : World) (sid : Nat) (path : String) (v : SVal) :
    World × Option SVal :=
  let r := Store.write w.restrictedMap w.heap sid path v
  ({ w with heap := r.1 }, r.2)

/-! Basic lemmas about the heap and the association-list maps. -/

/-- A well-formed heap: every allocated id is below the allocation
counter. -/
def Heap.wf (h : Heap) : Prop := ∀ p ∈ h.objs, p.1 < h.next

instance (h : Heap) : Decidable h.wf := List.decidableBAll _ h.objs

theorem findSet_self (l : List (Nat × StoreObj)) (i : Nat) (o : StoreObj) :
    (l.map (fun e => if e.1 == i then (i, o) else e)).find?
        (fun e => e.1 == i) =
      (l.find? (fun e => e.1 == i)).map (fun _ => (i, o)) := by
  induction l with
  | nil => rfl
  | cons e t ih =>
    by_cases he : e.1 = i
    · have hb : (e.1 == i) = true := beq_iff_eq.mpr he
      have hhead : (if (e.1 == i) = true then (i, o) else e) = (i, o) := by
        rw [hb]; simp
      rw [List.map_cons, hhead,
        List.find?_cons_of_pos _ (by simp),
        List.find?_cons_of_pos _ (by simp [hb]), Option.map_some']
    · have hb : (e.1 == i) = false := beq_eq_false_iff_ne.mpr he
      have hhead : (if (e.1 == i) = true then (i, o) else e) = e := by
        rw [hb]; simp
      rw [List.map_cons, hhead,
        List.find?_cons_of_neg _ (by simp [hb]),
        List.find?_cons_of_neg _ (by simp [hb]), ih]

theorem findSet_ne (l : List (Nat × StoreObj)) (i j : Nat) (o : StoreObj)
    (hne : j ≠ i) :
    (l.map (fun e => if e.1 == i then (i, o) else e)).find?
        (fun e => e.1 == j) =
      l.find? (fun e => e.1 == j) := by
  induction l with
  | nil => rfl
  | cons e t ih =>
    by_cases he : e.1 = i
    · have hb : (e.1 == i) = true := beq_iff_eq.mpr he
      have hb2 : (i == j) = false := beq_eq_false_iff_ne.mpr (Ne.symm hne)
      have hb3 : (e.1 == j) = false := by rw [he]; exact hb2
      have hhead : (if (e.1 == i) = true then (i, o) else e) = (i, o) := by
        rw [hb]; simp
      rw [List.map_cons, hhead,
        List.find?_cons_of_neg _ (by simp [hb2]),
        List.find?_cons_of_neg _ (by simp [hb3]), ih]
    · have hb : (e.1 == i) = false := beq_eq_false_iff_ne.mpr he
      have hhead : (if (e.1 == i) = true then (i, o) else e) = e := by
        rw [hb]; simp
      by_cases hj : e.1 = j
      · have hb2 : (e.1 == j) = true := beq_iff_eq.mpr hj
        rw [List.map_cons, hhead,
          List.find?_cons_of_pos _ (by simp [hb2]),
          List.find?_cons_of_pos _ (by simp [hb2])]
      · have hb2 : (e.1 == j) = false := beq_eq_false_iff_ne.mpr hj
        rw [List.map_cons, hhead,
          List.find?_cons_of_neg _ (by simp [hb2]),
          List.find?_cons_of_neg _ (by simp [hb2]), ih]

theorem Heap.get_set (h : Heap) (i : Nat) (o : StoreObj) :
    (h.set i o).get i = (h.get i).map (fun _ => o) := by
  unfold Heap.get Heap.set
  simp only
  rw [findSet_self]
  cases h.objs.find? (fun e => e.1 == i) <;> rfl

theorem Heap.get_set_ne (h : Heap) (i j : Nat) (o : StoreObj)
    (hne : j ≠ i) : (h.set i o).get j = h.get j := by
  unfold Heap.get Heap.set
  simp only
  rw [findSet_ne _ _ _ _ hne]

theorem Heap.get_alloc_of_ne_next (h : Heap) (i : Nat)
    (hne : i ≠ h.next) : (h.alloc).1.get i = h.get i := by
  unfold Heap.get Heap.alloc
  simp only [List.find?_append]
  cases hf : h.objs.find? (fun e => e.1 == i) with
  | none =>
    have hb : (h.next == i) = false := beq_eq_false_iff_ne.mpr (Ne.symm hne)
    simp [List.find?, hb]
  | some e => simp

theorem Heap.get_next_eq_none (h : Heap) (hwf : h.wf) :
    h.get h.next = Option.none := by
  unfold Heap.get
  cases hf : h.objs.find? (fun e => e.1 == h.next) with
  | none => simp
  | some e =>
    have hmem := List.mem_of_find?_eq_some hf
    have hlt := hwf e hmem
    have heq := List.find?_some hf
    simp only [beq_iff_eq] at heq
    omega

theorem Heap.get_alloc_next (h : Heap) (hwf : h.wf) :
    (h.alloc).1.get h.next = some freshStoreObj := by
  unfold Heap.get Heap.alloc
  simp only [List.find?_append]
  have hnone : h.objs.find? (fun e => e.1 == h.next) = Option.none := by
    have hg := Heap.get_next_eq_none h hwf
    unfold Heap.get at hg
    cases hf : h.objs.find? (fun e => e.1 == h.next) with
    | none => rfl
    | some e => rw [hf] at hg; simp at hg
  simp [hnone, List.find?]

theorem Heap.get_alloc_of_some (h : Heap) (i : Nat) (o : StoreObj)
    (hwf : h.wf) (hg : h.get i = some o) : (h.alloc).1.get i = some o := by
  have hne : i ≠ h.next := by
    intro he
    rw [he, Heap.get_next_eq_none h hwf] at hg
    exact Option.noConfusion hg
  rw [Heap.get_alloc_of_ne_next h i hne, hg]

theorem Heap.wf_set (h : Heap) (i : Nat) (o : StoreObj) (hwf : h.wf) :
    (h.set i o).wf := by
  intro p hp
  unfold Heap.set at hp
  simp only at hp
  rcases List.mem_map.mp hp with ⟨e, he, heq⟩
  by_cases hc : (e.1 == i) = true
  · have he1 : e.1 = i := beq_iff_eq.mp hc
    have hlt := hwf e he
    rw [hc] at heq
    simp only [if_true] at heq
    subst heq
    simp only [Heap.set]
    omega
  · rw [Bool.not_eq_true] at hc
    rw [hc] at heq
    simp only [Bool.false_eq_true, if_false] at heq
    subst heq
    exact hwf e he

theorem Heap.wf_alloc (h : Heap) (hwf : h.wf) : (h.alloc).1.wf := by
  intro p hp
  unfold Heap.alloc at hp
  simp only at hp
  rcases List.mem_append.mp hp with hm | hm
  · have := hwf p hm
    simp only [Heap.alloc]
    omega
  · simp at hm
    simp [hm, Heap.alloc]

theorem Heap.lt_next_of_get_some (h : Heap) (i : Nat) (o : StoreObj)
    (hwf : h.wf) (hg : h.get i = some o) : i < h.next := by
  unfold Heap.get at hg
  cases hf : h.objs.find? (fun e => e.1 == i) with
  | none => rw [hf] at hg; exact Option.noConfusion hg
  | some e =>
    have hmem := List.mem_of_find?_eq_some hf
    have h1 := hwf e hmem
    have h2 := List.find?_some hf
    simp only [beq_iff_eq] at h2
    rw [hf] at hg
    simp only [Option.map_some'] at hg
    omega

theorem findSetS_self (l : List (String × SVal)) (k : String) (v : SVal) :
    (l.map (fun e => if e.1 == k then (k, v) else e)).find?
        (fun e => e.1 == k) =
      (l.find? (fun e => e.1 == k)).map (fun _ => (k, v)) := by
  induction l with
  | nil => rfl
  | cons e t ih =>
    by_cases he : e.1 = k
    · have hb : (e.1 == k) = true := beq_iff_eq.mpr he
      have hhead : (if (e.1 == k) = true then (k, v) else e) = (k, v) := by
        rw [hb]; simp
      rw [List.map_cons, hhead,
        List.find?_cons_of_pos _ (by simp),
        List.find?_cons_of_pos _ (by simp [hb]), Option.map_some']
    · have hb : (e.1 == k) = false := beq_eq_false_iff_ne.mpr he
      have hhead : (if (e.1 == k) = true then (k, v) else e) = e := by
        rw [hb]; simp
      rw [List.map_cons, hhead,
        List.find?_cons_of_neg _ (by simp [hb]),
        List.find?_cons_of_neg _ (by simp [hb]), ih]

theorem findSetS_ne (l : List (String × SVal)) (k k' : String) (v : SVal)
    (hne : k' ≠ k) :
    (l.map (fun e => if e.1 == k then (k, v) else e)).find?
        (fun e => e.1 == k') =
      l.find? (fun e => e.1 == k') := by
  induction l with
  | nil => rfl
  | cons e t ih =>
    by_cases he : e.1 = k
    · have hb : (e.1 == k) = true := beq_iff_eq.mpr he
      have hb2 : (k == k') = false := beq_eq_false_iff_ne.mpr (Ne.symm hne)
      have hb3 : (e.1 == k') = false := by rw [he]; exact hb2
      have hhead : (if (e.1 == k) = true then (k, v) else e) = (k, v) := by
        rw [hb]; simp
      rw [List.map_cons, hhead,
        List.find?_cons_of_neg _ (by simp [hb2]),
        List.find?_cons_of_neg _ (by simp [hb3]), ih]
    · have hb : (e.1 == k) = false := beq_eq_false_iff_ne.mpr he
      have hhead : (if (e.1 == k) = true then (k, v) else e) = e := by
        rw [hb]; simp
      by_cases hj : e.1 = k'
      · have hb2 : (e.1 == k') = true := beq_iff_eq.mpr hj
        rw [List.map_cons, hhead,
          List.find?_cons_of_pos _ (by simp [hb2]),
          List.find?_cons_of_pos _ (by simp [hb2])]
      · have hb2 : (e.1 == k') = false := beq_eq_false_iff_ne.mpr hj
        rw [List.map_cons, hhead,
          List.find?_cons_of_neg _ (by simp [hb2]),
          List.find?_cons_of_neg _ (by simp [hb2]), ih]

theorem assocGet_assocSet_self (l : List (String × SVal)) (k : String)
    (v : SVal) : assocGet (assocSet l k v) k = some v := by
  unfold assocGet assocSet
  by_cases ha : (l.any (fun e => e.1 == k)) = true
  · rw [if_pos ha, findSetS_self]
    cases hf : l.find? (fun e => e.1 == k) with
    | none =>
      rw [List.find?_eq_none] at hf
      rw [List.any_eq_true] at ha
      rcases ha with ⟨x, hx, hpx⟩
      exact absurd hpx (hf x hx)
    | some e => simp
  · rw [if_neg ha, List.find?_append]
    have hf : l.find? (fun e => e.1 == k) = Option.none := by
      rw [List.find?_eq_none]
      intro e he hpe
      exact ha (List.any_eq_true.mpr ⟨e, he, hpe⟩)
    rw [hf]
    simp [List.find?]

theorem assocGet_assocSet_ne (l : List (String × SVal)) (k k' : String)
    (v : SVal) (hne : k' ≠ k) :
    assocGet (assocSet l k v) k' = assocGet l k' := by
  unfold assocGet assocSet
  by_cases ha : (l.any (fun e => e.1 == k)) = true
  · rw [if_pos ha, findSetS_ne _ _ _ _ hne]
  · rw [if_neg ha, List.find?_append]
    cases hf : l.find? (fun e => e.1 == k') with
    | none =>
      have hb : (k == k') = false := beq_eq_false_iff_ne.mpr (Ne.symm hne)
      simp [List.find?, hb]
    | some e => simp

/-! Claim C2: permission levels versus the two grant predicates. -/

/-- C2: for every store instance and field name, a resolved field-specific
permission of `r` grants read only, `none` grants neither, `rw` grants
both, `w` grants write only; and when no field-specific declaration
resolves, both answers are exactly the grants of the instance's
`defaultPolicy`. -/
theorem c2_permission_grants (reg : Reg) (obj : StoreObj) (k : String) :
    (findPermission reg obj.chain k = some Permission.r →
      allowedToRead reg obj k = true ∧ allowedToWrite reg obj k = false) ∧
    (findPermission reg obj.chain k = some Permission.none →
      allowedToRead reg obj k = false ∧ allowedToWrite reg obj k = false) ∧
    (findPermission reg obj.chain k = some Permission.rw →
      allowedToRead reg obj k = true ∧ allowedToWrite reg obj k = true) ∧
    (findPermission reg obj.chain k = some Permission.w →
      allowedToRead reg obj k = false ∧ allowedToWrite reg obj k = true) ∧
    (findPermission reg obj.chain k = Option.none →
      allowedToRead reg obj k = readPermissions.contains obj.defaultPolicy ∧
      allowedToWrite reg obj k =
        writePermissions.contains obj.defaultPolicy) := by
  refine ⟨?_, ?_, ?_, ?_, ?_⟩ <;> intro hf <;>
    constructor <;>
      simp [allowedToRead, allowedToWrite, hf, readPermissions,
        writePermissions]

/-- C2 witness: a concrete read-only field on a plain store. -/
theorem c2_permission_grants_witness :
    findPermission [("Store:a", Permission.r)] freshStoreObj.chain "a" =
        some Permission.r ∧
      allowedToRead [("Store:a", Permission.r)] freshStoreObj "a" = true ∧
      allowedToWrite [("Store:a", Permission.r)] freshStoreObj "a" = false :=
  ⟨by decide,
   (c2_permission_grants [("Store:a", Permission.r)] freshStoreObj "a").1
     (by decide)⟩

/-! Claim C3: the resolver walks the class chain most-derived first. -/

/-- C3: for a constructor chain `clss ++ ["Store", ""]` whose proper class
names are nonempty and distinct from `"Object"` and `"Store"`, permission
resolution returns the first registry hit along `clss ++ ["Store"]` in
most-derived-first order (so the root `Store` class is checked exactly
once, and the walk returns unresolved only after it); hence a subclass
declaration overrides an ancestor one and undeclared fields fall through
to the ancestor's declaration. -/
theorem findPermission_cons_some (reg : Reg) (c k : String)
    (rest : List String) (p : Permission)
    (hguard : ¬(c = "" ∨ c = "Object"))
    (hr : regGet reg (buildKey c k) = some p) :
    findPermission reg (c :: rest) k = some p := by
  simp only [findPermission, if_neg hguard, hr]

theorem findPermission_cons_store (reg : Reg) (c k : String)
    (rest : List String) (hguard : ¬(c = "" ∨ c = "Object"))
    (hr : regGet reg (buildKey c k) = Option.none)
    (hhead : rest.head? = some "Store") :
    findPermission reg (c :: rest) k =
      regGet reg (buildKey "Store" k) := by
  simp only [findPermission, if_neg hguard, hr]
  rw [if_pos hhead]

theorem findPermission_cons_none (reg : Reg) (c k : String)
    (rest : List String) (hguard : ¬(c = "" ∨ c = "Object"))
    (hr : regGet reg (buildKey c k) = Option.none)
    (hhead : ¬(rest.head? = some "Store")) :
    findPermission reg (c :: rest) k = findPermission reg rest k := by
  simp only [findPermission, if_neg hguard, hr]
  rw [if_neg hhead]

theorem c3_resolution_order (reg : Reg) (clss : List String) (k : String)
    (hn : ∀ c ∈ clss, c ≠ "" ∧ c ≠ "Object" ∧ c ≠ "Store") :
    findPermission reg (clss ++ ["Store", ""]) k =
      (clss ++ ["Store"]).findSome?
        (fun c => regGet reg (buildKey c k)) := by
  induction clss with
  | nil =>
    cases hr : regGet reg (buildKey "Store" k) <;>
      simp [findPermission, hr, List.findSome?]
  | cons c cs ih =>
    have hc := hn c (List.mem_cons_self c cs)
    have hguard : ¬(c = "" ∨ c = "Object") := by
      rcases hc with ⟨h1, h2, _⟩
      rintro (h | h) <;> [exact h1 h; exact h2 h]
    have ihs := ih (fun x hx => hn x (List.mem_cons_of_mem c hx))
    rw [List.cons_append, List.cons_append]
    cases hr : regGet reg (buildKey c k) with
    | some p =>
      rw [findPermission_cons_some reg c k _ p hguard hr]
      simp [List.findSome?, hr]
    | none =>
      cases cs with
      | nil =>
        rw [findPermission_cons_store reg c k ([] ++ ["Store", ""]) hguard hr (by simp)]
        cases hs : regGet reg (buildKey "Store" k) <;>
          simp [List.findSome?, hr, hs]
      | cons c2 cs2 =>
        have hc2 := hn c2 (List.mem_cons_of_mem c (List.mem_cons_self c2 cs2))
        have hhead : ¬(((c2 :: cs2) ++ ["Store", ""]).head? =
            some "Store") := by
          rw [List.cons_append, List.head?_cons]
          intro hcon
          exact hc2.2.2 (Option.some.inj hcon)
        rw [findPermission_cons_none reg c k _ hguard hr hhead, ihs]
        simp [List.findSome?, hr]

/-- C3 witness: an `AdminStore`-like chain where the subclass declaration
for `name` overrides, and an undeclared field falls through to the root
`Store` declaration. -/
theorem c3_resolution_order_witness :
    (∀ c ∈ ["AdminStore"],
        c ≠ "" ∧ c ≠ "Object" ∧ c ≠ "Store") ∧
      findPermission [("AdminStore:name", Permission.none),
          ("Store:name", Permission.rw), ("Store:x", Permission.r)]
          (["AdminStore"] ++ ["Store", ""]) "name" =
        (["AdminStore"] ++ ["Store"]).findSome?
          (fun c => regGet [("AdminStore:name", Permission.none),
            ("Store:name", Permission.rw), ("Store:x", Permission.r)]
            (buildKey c "name")) :=
  ⟨by decide,
   c3_resolution_order _ ["AdminStore"] "name" (by decide)⟩

/-! Unfolding lemmas for `readSegs`. -/

theorem readSegs_get_none (reg : Reg) (h : Heap) (sid : Nat)
    (segs : List String) (hg : h.get sid = Option.none) :
    readSegs reg h sid segs = (h, Option.none) := by
  cases segs <;> rw [readSegs, hg]

theorem readSegs_guard_none (reg : Reg) (h : Heap) (sid : Nat)
    (obj : StoreObj) (k : String) (rest : List String)
    (hg : h.get sid = some obj)
    (hguard : k = "" ∨ allowedToRead reg obj k = false) :
    readSegs reg h sid (k :: rest) = (h, Option.none) := by
  rw [readSegs, hg]
  simp only [if_pos hguard]

theorem readSegs_cons (reg : Reg) (h : Heap) (sid : Nat) (obj : StoreObj)
    (k : String) (rest : List String) (hg : h.get sid = some obj)
    (hguard : ¬(k = "" ∨ allowedToRead reg obj k = false)) :
    readSegs reg h sid (k :: rest) =
      match (resolveKey h sid obj k).2, rest with
      | .store cid, _ :: _ =>
        readSegs reg (resolveKey h sid obj k).1 cid rest
      | _, _ =>
        ((resolveKey h sid obj k).1, some (resolveKey h sid obj k).2) := by
  rw [readSegs, hg]
  simp only [if_neg hguard]

theorem readSegs_single (reg : Reg) (h : Heap) (sid : Nat)
    (obj : StoreObj) (k : String) (hg : h.get sid = some obj)
    (hguard : ¬(k = "" ∨ allowedToRead reg obj k = false)) :
    readSegs reg h sid [k] =
      ((resolveKey h sid obj k).1, some (resolveKey h sid obj k).2) := by
  rw [readSegs_cons reg h sid obj k [] hg hguard]
  cases hv : (resolveKey h sid obj k).2 <;> simp [hv]

/-! Claim C9: missing keys read as undefined, not as errors. -/

/-- C9: a single-segment read of a non-empty, readable key `k` that is
present neither in `data` nor as an instance field returns `undefined`
without error (and without mutating the heap); an empty first segment or
a denied read permission makes `read` fail immediately. -/
theorem c9_missing_key_undefined (reg : Reg) (h : Heap) (sid : Nat)
    (obj : StoreObj) (k : String) (hg : h.get sid = some obj) :
    (k ≠ "" → allowedToRead reg obj k = true →
      assocGet obj.data k = Option.none →
      assocGet obj.fields k = Option.none →
      readSegs reg h sid [k] = (h, some SVal.undefined)) ∧
    (k = "" → readSegs reg h sid [k] = (h, Option.none)) ∧
    (allowedToRead reg obj k = false →
      readSegs reg h sid [k] = (h, Option.none)) := by
  refine ⟨?_, ?_, ?_⟩
  · intro hne hr hdata hfields
    have hguard : ¬(k = "" ∨ allowedToRead reg obj k = false) := by
      rintro (hc | hc) <;> simp_all
    rw [readSegs_single reg h sid obj k hg hguard]
    simp [resolveKey, hdata, hfields, SVal.truthy]
  · intro hke
    exact readSegs_guard_none reg h sid obj k [] hg (Or.inl hke)
  · intro hr
    exact readSegs_guard_none reg h sid obj k [] hg (Or.inr hr)

/-- C9 witness: a fresh empty store returns `undefined` for a missing
key, fails on the empty key, and fails under a read-denying policy. -/
theorem c9_missing_key_undefined_witness :
    readSegs [] ⟨[(0, freshStoreObj)], 1⟩ 0 ["missing"] =
      (⟨[(0, freshStoreObj)], 1⟩, some SVal.undefined) :=
  (c9_missing_key_undefined [] ⟨[(0, freshStoreObj)], 1⟩ 0 freshStoreObj
      "missing" (by decide)).1
    (by decide) (by decide) (by decide) (by decide)

/-! Claim C7: descend into a store, or ignore the remaining segments. -/

/-- C7: for a read with remaining segments after the first, when the
first segment's resolved value (after invoking a function-valued entry)
is a Store, `read` recurses into it with the remaining path; when it is
not a Store, the remaining segments are ignored and the leaf value is
returned without error. -/
theorem c7_descend_or_ignore (reg : Reg) (h : Heap) (sid : Nat)
    (k : String) (rest : List String) (h1 : Heap) (rv : SVal)
    (hrest : rest ≠ [])
    (hread : readSegs reg h sid [k] = (h1, some rv)) :
    ((∀ cid, rv ≠ SVal.store cid) →
      readSegs reg h sid (k :: rest) = (h1, some rv)) ∧
    (∀ cid, rv = SVal.store cid →
      readSegs reg h sid (k :: rest) = readSegs reg h1 cid rest) := by
  cases hg : h.get sid with
  | none =>
    rw [readSegs_get_none reg h sid [k] hg] at hread
    have hcon := congrArg Prod.snd hread
    simp at hcon
  | some obj =>
    by_cases hguard : (k = "" ∨ allowedToRead reg obj k = false)
    · rw [readSegs_guard_none reg h sid obj k [] hg hguard] at hread
      have hcon := congrArg Prod.snd hread
      simp at hcon
    · rw [readSegs_single reg h sid obj k hg hguard] at hread
      have hh1 : (resolveKey h sid obj k).1 = h1 :=
        congrArg Prod.fst hread
      have hrv : (resolveKey h sid obj k).2 = rv := by
        have := congrArg Prod.snd hread
        simpa using this
      rw [readSegs_cons reg h sid obj k rest hg hguard]
      cases rest with
      | nil => exact absurd rfl hrest
      | cons r rs =>
        constructor
        · intro hns
          cases hv : (resolveKey h sid obj k).2 with
          | store cid => exact absurd (hv ▸ hrv).symm (hns cid)
          | _ => rw [← hrv, hv] <;> simp [hh1, hv]
        · intro cid hcid
          rw [hrv, hcid]
          simp [hh1]

/-- C7 witness: a store entry descends into the child; then a primitive
leaf swallows the remaining segment. -/
theorem c7_descend_or_ignore_witness :
    readSegs []
        ⟨[(0, ⟨["Store", ""], Permission.rw, [],
            [("a", SVal.store 1)]⟩),
          (1, ⟨["Store", ""], Permission.rw, [],
            [("b", SVal.prim (Prim.int 7))]⟩)], 2⟩
        0 ["a", "b"] =
      readSegs []
        ⟨[(0, ⟨["Store", ""], Permission.rw, [],
            [("a", SVal.store 1)]⟩),
          (1, ⟨["Store", ""], Permission.rw, [],
            [("b", SVal.prim (Prim.int 7))]⟩)], 2⟩
        1 ["b"] :=
  (c7_descend_or_ignore _ _ 0 "a" ["b"] _ (SVal.store 1)
      (by simp) (by decide)).2 1 rfl

/-! Claim C6 (corrected): first-segment resolution and field fallback. -/

/-- C6 counterexample: the store's `data` map contains an entry for
`name` (the falsy string `""`), yet `read` returns the instance field
value `"John Doe"` instead of the entry: the instance-field fallback in
`store.ts` line 80 triggers on `!value` (falsiness), not on absence. -/
theorem c6_counterexample :
    assocGet
        (StoreObj.mk ["UserStore", "Store", ""] Permission.rw
          [("name", SVal.prim (Prim.str "John Doe"))]
          [("name", SVal.prim (Prim.str ""))]).data "name" =
      some (SVal.prim (Prim.str "")) ∧
    (readSegs []
        ⟨[(0, StoreObj.mk ["UserStore", "Store", ""] Permission.rw
          [("name", SVal.prim (Prim.str "John Doe"))]
          [("name", SVal.prim (Prim.str ""))])], 1⟩ 0 ["name"]).2 =
      some (SVal.prim (Prim.str "John Doe")) ∧
    SVal.prim (Prim.str "John Doe") ≠ SVal.prim (Prim.str "") := by
  refine ⟨by decide, by decide, by decide⟩

/-- C6 (amended): for a readable non-empty first segment `k`, a truthy
`data` entry is used directly (no fallback, no mutation); when the
`data` entry is absent or falsy, `read` falls back to an instance field
named `k` if one exists and caches that field value into `data`; when no
such field exists either, the (possibly falsy) data value is used as is.
In each case a function value is invoked after this resolution. -/
theorem c6_resolution_and_caching (reg : Reg) (h : Heap) (sid : Nat)
    (obj : StoreObj) (k : String) (hg : h.get sid = some obj)
    (hk : k ≠ "") (hr : allowedToRead reg obj k = true) :
    (∀ dv, assocGet obj.data k = some dv → dv.truthy = true →
      readSegs reg h sid [k] =
        (h, some (match dv with | SVal.fn r => r.toSVal | v => v))) ∧
    (((assocGet obj.data k).getD SVal.undefined).truthy = false →
      ∀ fv, assocGet obj.fields k = some fv →
        readSegs reg h sid [k] =
          (h.set sid { obj with data := assocSet obj.data k fv },
           some (match fv with | SVal.fn r => r.toSVal | v => v))) ∧
    (((assocGet obj.data k).getD SVal.undefined).truthy = false →
      assocGet obj.fields k = Option.none →
      readSegs reg h sid [k] =
        (h, some (match (assocGet obj.data k).getD SVal.undefined with
          | SVal.fn r => r.toSVal | v => v))) := by
  have hguard : ¬(k = "" ∨ allowedToRead reg obj k = false) := by
    rintro (hc | hc) <;> simp_all
  rw [readSegs_single reg h sid obj k hg hguard]
  refine ⟨?_, ?_, ?_⟩
  · intro dv hdv htr
    simp only [resolveKey, hdv, Option.getD_some, htr]
    cases dv <;> simp_all
  · intro hfalsy fv hfv
    simp only [resolveKey, hfalsy, hfv]
    cases fv <;> simp_all
  · intro hfalsy hfv
    simp only [resolveKey, hfalsy, hfv]
    cases hdv : (assocGet obj.data k).getD SVal.undefined <;> simp_all

/-- C6 witness: a truthy data entry is returned directly, heap
unchanged. -/
theorem c6_resolution_and_caching_witness :
    readSegs []
        ⟨[(0, StoreObj.mk ["Store", ""] Permission.rw []
          [("a", SVal.prim (Prim.int 5))])], 1⟩ 0 ["a"] =
      (⟨[(0, StoreObj.mk ["Store", ""] Permission.rw []
          [("a", SVal.prim (Prim.int 5))])], 1⟩,
       some (SVal.prim (Prim.int 5))) :=
  (c6_resolution_and_caching []
      ⟨[(0, StoreObj.mk ["Store", ""] Permission.rw []
        [("a", SVal.prim (Prim.int 5))])], 1⟩ 0
      (StoreObj.mk ["Store", ""] Permission.rw []
        [("a", SVal.prim (Prim.int 5))]) "a" (by decide) (by decide)
      (by decide)).1
    (SVal.prim (Prim.int 5)) (by decide) (by decide)

/-! Unfolding lemmas for `writeSegs` and `writeEntriesList` (these are
well-founded recursive, so concrete computations go through their
equations rather than kernel reduction). -/

theorem writeSegs_get_none (reg : Reg) (h : Heap) (sid : Nat)
    (segs : List String) (v : SVal) (hg : h.get sid = Option.none) :
    writeSegs reg h sid segs v = (h, Option.none) := by
  cases segs <;> rw [writeSegs, hg]

theorem writeSegs_leaf_guard (reg : Reg) (h : Heap) (sid : Nat)
    (obj : StoreObj) (k : String) (v : SVal) (hg : h.get sid = some obj)
    (hguard : k = "" ∨ allowedToWrite reg obj k = false) :
    writeSegs reg h sid [k] v = (h, Option.none) := by
  rw [writeSegs, hg]
  simp only [if_pos hguard]

theorem writeSegs_leaf_plain (reg : Reg) (h : Heap) (sid : Nat)
    (obj : StoreObj) (k : String) (v : SVal) (hg : h.get sid = some obj)
    (hguard : ¬(k = "" ∨ allowedToWrite reg obj k = false))
    (hv : ∀ o, v ≠ SVal.obj o) :
    writeSegs reg h sid [k] v =
      (h.set sid { obj with data := assocSet obj.data k v }, some v) := by
  rw [writeSegs, hg]
  simp only [if_neg hguard]

theorem writeSegs_leaf_obj (reg : Reg) (h : Heap) (sid : Nat)
    (obj : StoreObj) (k : String) (o : List (String × JVal))
    (hg : h.get sid = some obj)
    (hguard : ¬(k = "" ∨ allowedToWrite reg obj k = false)) :
    writeSegs reg h sid [k] (SVal.obj o) =
      match writeEntriesList reg (Heap.alloc h).1 (Heap.alloc h).2 o with
      | (h2, some _) =>
        match h2.get sid with
        | Option.none => (h2, Option.none)
        | some obj1 =>
          (h2.set sid
            { obj1 with
              data := assocSet obj1.data k (.store (Heap.alloc h).2) },
           some (.store (Heap.alloc h).2))
      | (h2, Option.none) => (h2, Option.none) := by
  rw [writeSegs, hg]
  simp only [if_neg hguard]

theorem writeSegs_cons_guard (reg : Reg) (h : Heap) (sid : Nat)
    (obj : StoreObj) (k r1 : String) (rs : List String) (v : SVal)
    (hg : h.get sid = some obj)
    (hguard : k = "" ∨ allowedToRead reg obj k = false) :
    writeSegs reg h sid (k :: r1 :: rs) v = (h, Option.none) := by
  rw [writeSegs, hg]
  simp only [if_pos hguard]

theorem writeSegs_cons (reg : Reg) (h : Heap) (sid : Nat)
    (obj : StoreObj) (k r1 : String) (rs : List String) (v : SVal)
    (hg : h.get sid = some obj)
    (hguard : ¬(k = "" ∨ allowedToRead reg obj k = false)) :
    writeSegs reg h sid (k :: r1 :: rs) v =
      match readSegs reg h sid [k] with
      | (h1, Option.none) => (h1, Option.none)
      | (h1, some nested) =>
        match nested with
        | .store cid => writeSegs reg h1 cid (r1 :: rs) v
        | _ =>
          match (Heap.alloc h1).1.get sid with
          | Option.none => ((Heap.alloc h1).1, Option.none)
          | some obj1 =>
            writeSegs reg
              ((Heap.alloc h1).1.set sid
                { obj1 with
                  data := assocSet obj1.data k (.store (Heap.alloc h1).2) })
              (Heap.alloc h1).2 (r1 :: rs) v := by
  rw [writeSegs, hg]
  simp only [if_neg hguard]

theorem writeEntriesList_nil (reg : Reg) (h : Heap) (sid : Nat) :
    writeEntriesList reg h sid [] = (h, some ()) := by
  rw [writeEntriesList]

theorem writeEntriesList_cons_obj (reg : Reg) (h : Heap) (sid : Nat)
    (k : String) (o : List (String × JVal))
    (rest : List (String × JVal)) :
    writeEntriesList reg h sid ((k, JVal.obj o) :: rest) =
      match writeSegs reg (Heap.alloc h).1 sid (splitColon k)
          (.store (Heap.alloc h).2) with
      | (h2, some _) =>
        match writeEntriesList reg h2 (Heap.alloc h).2 o with
        | (h3, some _) => writeEntriesList reg h3 sid rest
        | (h3, Option.none) => (h3, Option.none)
      | (h2, Option.none) => (h2, Option.none) := by
  rw [writeEntriesList]

theorem writeEntriesList_cons_plain (reg : Reg) (h : Heap) (sid : Nat)
    (k : String) (jv : JVal) (rest : List (String × JVal))
    (hjv : ∀ o, jv ≠ JVal.obj o) :
    writeEntriesList reg h sid ((k, jv) :: rest) =
      match writeSegs reg h sid (splitColon k) (jvalToSVal jv) with
      | (h2, some _) => writeEntriesList reg h2 sid rest
      | (h2, Option.none) => (h2, Option.none) := by
  cases jv with
  | obj o => exact absurd rfl (hjv o)
  | prim p =>
    rw [writeEntriesList]
    simp
  | arr a =>
    rw [writeEntriesList]
    simp

/-! Claim C8: `writeEntries` is sequential with no rollback. -/

theorem writeEntriesList_append_ok (reg : Reg) (sid : Nat)
    (pre : List (String × JVal)) :
    ∀ (h h1 : Heap) (post : List (String × JVal)),
      writeEntriesList reg h sid pre = (h1, some ()) →
      writeEntriesList reg h sid (pre ++ post) =
        writeEntriesList reg h1 sid post := by
  induction pre with
  | nil =>
    intro h h1 post hpre
    rw [writeEntriesList_nil] at hpre
    have hh : h = h1 := congrArg Prod.fst hpre
    rw [List.nil_append, hh]
  | cons e rest ih =>
    intro h h1 post hpre
    obtain ⟨k, jv⟩ := e
    cases jv with
    | obj o =>
      rw [writeEntriesList_cons_obj] at hpre
      rw [List.cons_append, writeEntriesList_cons_obj]
      cases hw : writeSegs reg (Heap.alloc h).1 sid (splitColon k)
          (.store (Heap.alloc h).2) with
      | mk h2 r2 =>
        simp only [hw] at hpre ⊢
        cases r2 with
        | none => simp at hpre
        | some u =>
          cases hwe : writeEntriesList reg h2 (Heap.alloc h).2 o with
          | mk h3 r3 =>
            simp only [hwe] at hpre ⊢
            cases r3 with
            | none => simp at hpre
            | some u2 => exact ih h3 h1 post hpre
    | prim p =>
      rw [writeEntriesList_cons_plain reg h sid k (JVal.prim p) rest
        (by intro o hco; exact JVal.noConfusion hco)] at hpre
      rw [List.cons_append, writeEntriesList_cons_plain reg h sid k
        (JVal.prim p) (rest ++ post)
        (by intro o hco; exact JVal.noConfusion hco)]
      cases hw : writeSegs reg h sid (splitColon k)
          (jvalToSVal (JVal.prim p)) with
      | mk h2 r2 =>
        simp only [hw] at hpre ⊢
        cases r2 with
        | none => simp at hpre
        | some u => exact ih h2 h1 post hpre
    | arr a =>
      rw [writeEntriesList_cons_plain reg h sid k (JVal.arr a) rest
        (by intro o hco; exact JVal.noConfusion hco)] at hpre
      rw [List.cons_append, writeEntriesList_cons_plain reg h sid k
        (JVal.arr a) (rest ++ post)
        (by intro o hco; exact JVal.noConfusion hco)]
      cases hw : writeSegs reg h sid (splitColon k)
          (jvalToSVal (JVal.arr a)) with
      | mk h2 r2 =>
        simp only [hw] at hpre ⊢
        cases r2 with
        | none => simp at hpre
        | some u => exact ih h2 h1 post hpre

theorem writeEntriesList_append_err (reg : Reg) (sid : Nat)
    (pre : List (String × JVal)) :
    ∀ (h h1 : Heap) (post : List (String × JVal)),
      writeEntriesList reg h sid pre = (h1, Option.none) →
      writeEntriesList reg h sid (pre ++ post) = (h1, Option.none) := by
  induction pre with
  | nil =>
    intro h h1 post hpre
    rw [writeEntriesList_nil] at hpre
    have := congrArg Prod.snd hpre
    simp at this
  | cons e rest ih =>
    intro h h1 post hpre
    obtain ⟨k, jv⟩ := e
    cases jv with
    | obj o =>
      rw [writeEntriesList_cons_obj] at hpre
      rw [List.cons_append, writeEntriesList_cons_obj]
      cases hw : writeSegs reg (Heap.alloc h).1 sid (splitColon k)
          (.store (Heap.alloc h).2) with
      | mk h2 r2 =>
        simp only [hw] at hpre ⊢
        cases r2 with
        | none => exact hpre
        | some u =>
          cases hwe : writeEntriesList reg h2 (Heap.alloc h).2 o with
          | mk h3 r3 =>
            simp only [hwe] at hpre ⊢
            cases r3 with
            | none => exact hpre
            | some u2 => exact ih h3 h1 post hpre
    | prim p =>
      rw [writeEntriesList_cons_plain reg h sid k (JVal.prim p) rest
        (by intro o hco; exact JVal.noConfusion hco)] at hpre
      rw [List.cons_append, writeEntriesList_cons_plain reg h sid k
        (JVal.prim p) (rest ++ post)
        (by intro o hco; exact JVal.noConfusion hco)]
      cases hw : writeSegs reg h sid (splitColon k)
          (jvalToSVal (JVal.prim p)) with
      | mk h2 r2 =>
        simp only [hw] at hpre ⊢
        cases r2 with
        | none => exact hpre
        | some u => exact ih h2 h1 post hpre
    | arr a =>
      rw [writeEntriesList_cons_plain reg h sid k (JVal.arr a) rest
        (by intro o hco; exact JVal.noConfusion hco)] at hpre
      rw [List.cons_append, writeEntriesList_cons_plain reg h sid k
        (JVal.arr a) (rest ++ post)
        (by intro o hco; exact JVal.noConfusion hco)]
      cases hw : writeSegs reg h sid (splitColon k)
          (jvalToSVal (JVal.arr a)) with
      | mk h2 r2 =>
        simp only [hw] at hpre ⊢
        cases r2 with
        | none => exact hpre
        | some u => exact ih h2 h1 post hpre

/-- C8: `writeEntries` processes the input's key/value pairs in declared
order: a processed prefix commits its heap effects before the suffix
runs, and a failure inside the prefix stops the iteration with exactly
the prefix's partial effects — there is no transactional rollback. -/
theorem c8_sequential_no_rollback (reg : Reg) (h h1 : Heap) (sid : Nat)
    (pre post : List (String × JVal)) :
    (writeEntriesList reg h sid pre = (h1, some ()) →
      writeEntriesList reg h sid (pre ++ post) =
        writeEntriesList reg h1 sid post) ∧
    (writeEntriesList reg h sid pre = (h1, Option.none) →
      writeEntriesList reg h sid (pre ++ post) = (h1, Option.none)) :=
  ⟨fun hpre => writeEntriesList_append_ok reg sid pre h h1 post hpre,
   fun hpre => writeEntriesList_append_err reg sid pre h h1 post hpre⟩

/-- C8 witness: after a committed first pair, bulk-writing the whole
list continues from the committed heap — here the second pair is
write-denied, so the run fails while the first pair stays committed. -/
theorem c8_sequential_no_rollback_witness :
    writeEntriesList [("Store:b", Permission.r)] ⟨[(0, freshStoreObj)], 1⟩
        0 [("a", JVal.prim (Prim.int 1))] =
      (⟨[(0, StoreObj.mk ["Store", ""] Permission.rw []
          [("a", SVal.prim (Prim.int 1))])], 1⟩, some ()) ∧
    writeEntriesList [("Store:b", Permission.r)] ⟨[(0, freshStoreObj)], 1⟩
        0 ([("a", JVal.prim (Prim.int 1))] ++ [("b", JVal.prim (Prim.int 2))]) =
      writeEntriesList [("Store:b", Permission.r)]
        ⟨[(0, StoreObj.mk ["Store", ""] Permission.rw []
          [("a", SVal.prim (Prim.int 1))])], 1⟩
        0 [("b", JVal.prim (Prim.int 2))] := by
  have hcomp : writeEntriesList [("Store:b", Permission.r)]
      ⟨[(0, freshStoreObj)], 1⟩ 0 [("a", JVal.prim (Prim.int 1))] =
      (⟨[(0, StoreObj.mk ["Store", ""] Permission.rw []
        [("a", SVal.prim (Prim.int 1))])], 1⟩, some ()) := by
    rw [writeEntriesList_cons_plain _ _ _ _ _ _
      (by intro o hco; exact JVal.noConfusion hco)]
    rw [show splitColon "a" = ["a"] from rfl]
    rw [writeSegs_leaf_plain _ _ _ freshStoreObj _ _ (by decide) (by decide)
      (by intro o hco; exact SVal.noConfusion hco)]
    simp only [writeEntriesList_nil]
    decide
  exact ⟨hcomp,
    (c8_sequential_no_rollback [("Store:b", Permission.r)]
        ⟨[(0, freshStoreObj)], 1⟩
        ⟨[(0, StoreObj.mk ["Store", ""] Permission.rw []
          [("a", SVal.prim (Prim.int 1))])], 1⟩ 0
        [("a", JVal.prim (Prim.int 1))]
        [("b", JVal.prim (Prim.int 2))]).1 hcomp⟩

/-! Claim C10: frame property of single-segment leaf writes. -/

/-- C10: a successful single-segment (colon-free, non-empty key) write of
a non-plain-object value changes only the `data` entry for that key:
every other data key, the store's `defaultPolicy` (and chain and fields),
every other store in the heap, and the process-wide permission registry
are unchanged, and the value returned is the value stored. -/
theorem c10_leaf_write_frame (w : World) (sid : Nat) (obj : StoreObj)
    (k : String) (v : SVal) (out : World × Option SVal)
    (hg : w.heap.get sid = some obj)
    (hsplit : splitColon k = [k]) (hk : k ≠ "")
    (hv : ∀ o, v ≠ SVal.obj o)
    (hout : World.write w sid k v = out)
    (hok : out.2 ≠ Option.none) :
    out.1.restrictedMap = w.restrictedMap ∧
    out.2 = some v ∧
    (∃ obj1, out.1.heap.get sid = some obj1 ∧
      obj1.defaultPolicy = obj.defaultPolicy ∧
      obj1.chain = obj.chain ∧ obj1.fields = obj.fields ∧
      assocGet obj1.data k = some v ∧
      (∀ k2, k2 ≠ k → assocGet obj1.data k2 = assocGet obj.data k2)) ∧
    (∀ id2, id2 ≠ sid → out.1.heap.get id2 = w.heap.get id2) := by
  by_cases hguard : (k = "" ∨ allowedToWrite w.restrictedMap obj k = false)
  · rw [World.write, Store.write, hsplit,
      writeSegs_leaf_guard w.restrictedMap w.heap sid obj k v hg hguard]
      at hout
    rw [← hout] at hok
    simp at hok
  · rw [World.write, Store.write, hsplit,
      writeSegs_leaf_plain w.restrictedMap w.heap sid obj k v hg hguard hv]
      at hout
    rw [← hout]
    refine ⟨rfl, rfl, ⟨{ obj with data := assocSet obj.data k v },
      ?_, rfl, rfl, rfl, assocGet_assocSet_self obj.data k v,
      fun k2 hk2 => assocGet_assocSet_ne obj.data k k2 v hk2⟩, ?_⟩
    · simp only
      rw [Heap.get_set w.heap sid _, hg, Option.map_some']
    · intro id2 hid2
      simp only
      exact Heap.get_set_ne w.heap sid id2 _ hid2

/-- C10 witness: writing `1` at key `key` of a fresh store. -/
theorem c10_leaf_write_frame_witness :
    (World.write ⟨[("Store:other", Permission.r)],
        ⟨[(0, freshStoreObj)], 1⟩⟩ 0 "key"
      (SVal.prim (Prim.int 1))).1.restrictedMap =
      [("Store:other", Permission.r)] ∧
    (World.write ⟨[("Store:other", Permission.r)],
        ⟨[(0, freshStoreObj)], 1⟩⟩ 0 "key"
      (SVal.prim (Prim.int 1))).2 = some (SVal.prim (Prim.int 1)) := by
  have happ := c10_leaf_write_frame
    ⟨[("Store:other", Permission.r)], ⟨[(0, freshStoreObj)], 1⟩⟩ 0
    freshStoreObj "key" (SVal.prim (Prim.int 1))
    (World.write ⟨[("Store:other", Permission.r)],
      ⟨[(0, freshStoreObj)], 1⟩⟩ 0 "key" (SVal.prim (Prim.int 1)))
    (by decide) (by rfl) (by decide)
    (by intro o hco; exact SVal.noConfusion hco) rfl
    (by
      rw [World.write, Store.write, show splitColon "key" = ["key"] from rfl,
        writeSegs_leaf_plain _ _ _ freshStoreObj _ _ (by decide) (by decide)
          (by intro o hco; exact SVal.noConfusion hco)]
      simp)
  exact ⟨happ.1, happ.2.1⟩

/-! Claim C4: intermediate segments of a write are gated by the read
check; a non-Store slot gets a fresh empty store installed before the
recursion; the leaf is gated by the write check. -/

theorem resolveKey_fst_cases (h : Heap) (sid : Nat) (obj : StoreObj)
    (k : String) :
    (resolveKey h sid obj k).1 = h ∨
    ∃ fv, assocGet obj.fields k = some fv ∧
      (resolveKey h sid obj k).1 =
        h.set sid { obj with data := assocSet obj.data k fv } := by
  simp only [resolveKey]
  by_cases ht : ((assocGet obj.data k).getD SVal.undefined).truthy = false
  · rw [if_pos ht]
    cases hf : assocGet obj.fields k with
    | none =>
      left
      cases hval : (assocGet obj.data k).getD SVal.undefined <;> simp
    | some fv =>
      right
      refine ⟨fv, rfl, ?_⟩
      cases fv <;> simp
  · rw [if_neg ht]
    left
    cases hval : (assocGet obj.data k).getD SVal.undefined <;> simp

theorem readSegs_single_preserves (reg : Reg) (h : Heap) (sid : Nat)
    (obj : StoreObj) (k : String) (h1 : Heap) (nv : SVal)
    (hg : h.get sid = some obj) (hwf : h.wf)
    (hread : readSegs reg h sid [k] = (h1, some nv)) :
    h1.wf ∧ ∃ obj1, h1.get sid = some obj1 ∧
      obj1.chain = obj.chain ∧ obj1.defaultPolicy = obj.defaultPolicy ∧
      obj1.fields = obj.fields := by
  by_cases hguard : (k = "" ∨ allowedToRead reg obj k = false)
  · rw [readSegs_guard_none reg h sid obj k [] hg hguard] at hread
    have := congrArg Prod.snd hread
    simp at this
  · rw [readSegs_single reg h sid obj k hg hguard] at hread
    have hh1 : (resolveKey h sid obj k).1 = h1 := congrArg Prod.fst hread
    rcases resolveKey_fst_cases h sid obj k with hc | ⟨fv, _, hc⟩
    · rw [hc] at hh1
      subst hh1
      exact ⟨hwf, obj, hg, rfl, rfl, rfl⟩
    · rw [hc] at hh1
      subst hh1
      refine ⟨Heap.wf_set h sid _ hwf,
        { obj with data := assocSet obj.data k fv }, ?_, rfl, rfl, rfl⟩
      rw [Heap.get_set h sid _, hg, Option.map_some']

/-- C4: for a multi-segment write, the first segment is gated by the
read-permission check (a denied read fails the call regardless of write
permission), and when it passes with a non-Store current value a freshly
created empty store is installed at that key before the call recurses
into it; only the final segment is gated by the write-permission check,
whose denial fails the call. -/
theorem c4_intermediate_read_gate (reg : Reg) (h : Heap) (sid : Nat)
    (obj : StoreObj) (k r1 : String) (rs : List String) (v : SVal)
    (hg : h.get sid = some obj) (hwf : h.wf) :
    (allowedToRead reg obj k = false →
      writeSegs reg h sid (k :: r1 :: rs) v = (h, Option.none)) ∧
    (k ≠ "" → allowedToRead reg obj k = true →
      ∀ h1 nv, readSegs reg h sid [k] = (h1, some nv) →
        (∀ cid, nv ≠ SVal.store cid) →
        ∃ obj1, (Heap.alloc h1).1.get sid = some obj1 ∧
          writeSegs reg h sid (k :: r1 :: rs) v =
            writeSegs reg
              ((Heap.alloc h1).1.set sid
                { obj1 with data := assocSet obj1.data k (.store h1.next) })
              h1.next (r1 :: rs) v ∧
          ((Heap.alloc h1).1.set sid
              { obj1 with data := assocSet obj1.data k (.store h1.next) }).get
              h1.next = some freshStoreObj ∧
          assocGet (assocSet obj1.data k (.store h1.next)) k =
            some (SVal.store h1.next)) ∧
    (k ≠ "" → allowedToWrite reg obj k = false →
      writeSegs reg h sid [k] v = (h, Option.none)) := by
  refine ⟨?_, ?_, ?_⟩
  · intro hdeny
    exact writeSegs_cons_guard reg h sid obj k r1 rs v hg (Or.inr hdeny)
  · intro hk hr h1 nv hread hns
    obtain ⟨hwf1, obj1, hget1, _, _, _⟩ :=
      readSegs_single_preserves reg h sid obj k h1 nv hg hwf hread
    have hgetA : (Heap.alloc h1).1.get sid = some obj1 :=
      Heap.get_alloc_of_some h1 sid obj1 hwf1 hget1
    have hguard : ¬(k = "" ∨ allowedToRead reg obj k = false) := by
      rintro (hc | hc) <;> simp_all
    have hsidlt : sid < h1.next :=
      Heap.lt_next_of_get_some h1 sid obj1 hwf1 hget1
    refine ⟨obj1, hgetA, ?_, ?_,
      assocGet_assocSet_self obj1.data k (.store h1.next)⟩
    · rw [writeSegs_cons reg h sid obj k r1 rs v hg hguard]
      simp only [hread]
      cases nv with
      | store cid => exact absurd rfl (hns cid)
      | _ =>
        simp only [hgetA]
        try rfl
    · rw [Heap.get_set_ne _ _ _ _ (by omega)]
      exact Heap.get_alloc_next h1 hwf1
  · intro hk hdeny
    exact writeSegs_leaf_guard reg h sid obj k v hg (Or.inr hdeny)

/-- C4 witness: with keys `a` and `b` declared read-only at the root
class, a nested write through `a` still descends (read gate), installing
a fresh store at `a`, while a leaf write to `b` fails (write gate). -/
theorem c4_intermediate_read_gate_witness :
    (writeSegs [("Store:a", Permission.r), ("Store:b", Permission.r)]
        ⟨[(0, freshStoreObj)], 1⟩ 0 ["b"] (SVal.prim (Prim.int 3)) =
      (⟨[(0, freshStoreObj)], 1⟩, Option.none)) ∧
    (∃ obj1, (Heap.alloc ⟨[(0, freshStoreObj)], 1⟩).1.get 0 = some obj1 ∧
      writeSegs [("Store:a", Permission.r), ("Store:b", Permission.r)]
          ⟨[(0, freshStoreObj)], 1⟩ 0 ["a", "c"] (SVal.prim (Prim.int 3)) =
        writeSegs [("Store:a", Permission.r), ("Store:b", Permission.r)]
          ((Heap.alloc ⟨[(0, freshStoreObj)], 1⟩).1.set 0
            { obj1 with
              data := assocSet obj1.data "a" (SVal.store 1) })
          1 ["c"] (SVal.prim (Prim.int 3)) ∧
      ((Heap.alloc ⟨[(0, freshStoreObj)], 1⟩).1.set 0
          { obj1 with
            data := assocSet obj1.data "a" (SVal.store 1) }).get 1 =
        some freshStoreObj ∧
      assocGet (assocSet obj1.data "a" (SVal.store 1)) "a" =
        some (SVal.store 1)) :=
  ⟨(c4_intermediate_read_gate
      [("Store:a", Permission.r), ("Store:b", Permission.r)]
      ⟨[(0, freshStoreObj)], 1⟩ 0 freshStoreObj "b" "unused" []
      (SVal.prim (Prim.int 3)) (by decide) (by decide)).2.2
      (by decide) (by decide),
   (c4_intermediate_read_gate
      [("Store:a", Permission.r), ("Store:b", Permission.r)]
      ⟨[(0, freshStoreObj)], 1⟩ 0 freshStoreObj "a" "c" []
      (SVal.prim (Prim.int 3)) (by decide) (by decide)).2.1
      (by decide) (by decide)
      ⟨[(0, freshStoreObj)], 1⟩ SVal.undefined (by decide)
      (by intro cid hco; exact SVal.noConfusion hco)⟩

/-! Claim C5: plain structured values are always promoted to stores. -/

/-- Whether a store value is a raw plain object. -/
def SVal.isRawObj : SVal → Bool
  | .obj _ => true
  | _ => false

/-- No store's `data` map holds a raw plain object. -/
def noRawObjData (h : Heap) : Prop :=
  ∀ p ∈ h.objs, ∀ e ∈ p.2.data, e.2.isRawObj = false

theorem mem_assocSet (l : List (String × SVal)) (k : String) (v : SVal)
    (e : String × SVal) (he : e ∈ assocSet l k v) :
    e = (k, v) ∨ (e ∈ l ∧ e.1 ≠ k) := by
  unfold assocSet at he
  by_cases ha : (l.any (fun x => x.1 == k)) = true
  · rw [if_pos ha] at he
    rcases List.mem_map.mp he with ⟨x, hx, hxe⟩
    by_cases hk : (x.1 == k) = true
    · have hxe2 : (k, v) = e := by rw [hk] at hxe; simpa using hxe
      exact Or.inl hxe2.symm
    · rw [Bool.not_eq_true] at hk
      have hxe2 : x = e := by rw [hk] at hxe; simpa using hxe
      refine Or.inr ⟨hxe2 ▸ hx, ?_⟩
      rw [← hxe2]
      exact beq_eq_false_iff_ne.mp hk
  · rw [if_neg ha] at he
    rcases List.mem_append.mp he with hm | hm
    · refine Or.inr ⟨hm, ?_⟩
      intro hke
      exact ha (List.any_eq_true.mpr ⟨e, hm, by simp [hke]⟩)
    · simp at hm
      exact Or.inl hm

theorem mem_set_objs (h : Heap) (i : Nat) (o : StoreObj)
    (p : Nat × StoreObj) (hp : p ∈ (h.set i o).objs) :
    p = (i, o) ∨ (p ∈ h.objs ∧ p.1 ≠ i) := by
  unfold Heap.set at hp
  simp only at hp
  rcases List.mem_map.mp hp with ⟨x, hx, hxe⟩
  by_cases hk : (x.1 == i) = true
  · have hxe2 : (i, o) = p := by rw [hk] at hxe; simpa using hxe
    exact Or.inl hxe2.symm
  · rw [Bool.not_eq_true] at hk
    have hxe2 : x = p := by rw [hk] at hxe; simpa using hxe
    refine Or.inr ⟨hxe2 ▸ hx, ?_⟩
    rw [← hxe2]
    exact beq_eq_false_iff_ne.mp hk

theorem mem_alloc_objs (h : Heap) (p : Nat × StoreObj)
    (hp : p ∈ (h.alloc).1.objs) :
    p ∈ h.objs ∨ p = (h.next, freshStoreObj) := by
  unfold Heap.alloc at hp
  simp only at hp
  rcases List.mem_append.mp hp with hm | hm
  · exact Or.inl hm
  · simp at hm
    exact Or.inr hm

theorem noRawObjData_get (h : Heap) (hno : noRawObjData h) (i : Nat)
    (obj : StoreObj) (hg : h.get i = some obj) :
    ∀ e ∈ obj.data, e.2.isRawObj = false := by
  unfold Heap.get at hg
  cases hf : h.objs.find? (fun e => e.1 == i) with
  | none => rw [hf] at hg; exact Option.noConfusion hg
  | some p =>
    rw [hf] at hg
    simp only [Option.map_some', Option.some.injEq] at hg
    have hmem := List.mem_of_find?_eq_some hf
    rw [← hg]
    exact hno p hmem

theorem noRawObjData_set (h : Heap) (i : Nat) (o : StoreObj)
    (hno : noRawObjData h)
    (ho : ∀ e ∈ o.data, e.2.isRawObj = false) :
    noRawObjData (h.set i o) := by
  intro p hp e he
  rcases mem_set_objs h i o p hp with hc | ⟨hc, _⟩
  · rw [hc] at he
    exact ho e he
  · exact hno p hc e he

theorem noRawObjData_alloc (h : Heap) (hno : noRawObjData h) :
    noRawObjData (h.alloc).1 := by
  intro p hp e he
  rcases mem_alloc_objs h p hp with hc | hc
  · exact hno p hc e he
  · rw [hc] at he
    simp [freshStoreObj] at he

theorem resolveKey_cases_full (h : Heap) (sid : Nat) (obj : StoreObj)
    (k : String) :
    resolveKey h sid obj k =
      (h, (resolveKey h sid obj k).2) ∨
    ∃ fv, assocGet obj.fields k = some fv ∧
      resolveKey h sid obj k =
        (h.set sid { obj with data := assocSet obj.data k fv },
         match fv with | SVal.fn r => r.toSVal | v => v) := by
  simp only [resolveKey]
  by_cases ht : ((assocGet obj.data k).getD SVal.undefined).truthy = false
  · rw [if_pos ht]
    cases hf : assocGet obj.fields k with
    | none =>
      left
      cases hval : (assocGet obj.data k).getD SVal.undefined <;> simp
    | some fv =>
      right
      refine ⟨fv, rfl, ?_⟩
      cases fv <;> simp
  · rw [if_neg ht]
    left
    cases hval : (assocGet obj.data k).getD SVal.undefined <;> simp

theorem readSegs_single_none (reg : Reg) (h : Heap) (sid : Nat)
    (k : String) (h1 : Heap)
    (hread : readSegs reg h sid [k] = (h1, Option.none)) : h1 = h := by
  cases hg : h.get sid with
  | none =>
    rw [readSegs_get_none reg h sid [k] hg] at hread
    exact (congrArg Prod.fst hread).symm
  | some obj =>
    by_cases hguard : (k = "" ∨ allowedToRead reg obj k = false)
    · rw [readSegs_guard_none reg h sid obj k [] hg hguard] at hread
      exact (congrArg Prod.fst hread).symm
    · rw [readSegs_single reg h sid obj k hg hguard] at hread
      have := congrArg Prod.snd hread
      simp at this

theorem readSegs_single_data_cases (reg : Reg) (h : Heap) (sid : Nat)
    (obj : StoreObj) (k : String) (h1 : Heap) (nv : SVal)
    (hg : h.get sid = some obj)
    (hread : readSegs reg h sid [k] = (h1, some nv)) :
    h1 = h ∨
    ∃ fv, h1 = h.set sid { obj with data := assocSet obj.data k fv } ∧
      nv = (match fv with | SVal.fn r => r.toSVal | v => v) := by
  by_cases hguard : (k = "" ∨ allowedToRead reg obj k = false)
  · rw [readSegs_guard_none reg h sid obj k [] hg hguard] at hread
    have := congrArg Prod.snd hread
    simp at this
  · rw [readSegs_single reg h sid obj k hg hguard] at hread
    rcases resolveKey_cases_full h sid obj k with hc | ⟨fv, _, hc⟩
    · left
      have := congrArg Prod.fst hread
      rw [hc] at this
      exact this.symm
    · right
      refine ⟨fv, ?_, ?_⟩
      · have := congrArg Prod.fst hread
        rw [hc] at this
        exact this.symm
      · have := congrArg Prod.snd hread
        rw [hc] at this
        simp only [Option.some.injEq] at this
        exact this.symm

theorem writeSegs_nil (reg : Reg) (h : Heap) (sid : Nat) (v : SVal)
    (obj : StoreObj) (hg : h.get sid = some obj) :
    writeSegs reg h sid [] v = (h, Option.none) := by
  rw [writeSegs, hg]

theorem step_install_noRawObjData (reg : Reg) (h : Heap) (sid : Nat)
    (obj : StoreObj) (c : String) (h1 : Heap) (nested : SVal)
    (obj2 : StoreObj) (hg : h.get sid = some obj) (hwf : h.wf)
    (hno : noRawObjData h)
    (hread : readSegs reg h sid [c] = (h1, some nested))
    (hgetA : (h1.alloc).1.get sid = some obj2) (nid : Nat) :
    ((h1.alloc).1.set sid
      { obj2 with data := assocSet obj2.data c (SVal.store nid) }).wf ∧
    noRawObjData ((h1.alloc).1.set sid
      { obj2 with data := assocSet obj2.data c (SVal.store nid) }) := by
  obtain ⟨hwf1, obj1, hget1, _, _, _⟩ :=
    readSegs_single_preserves reg h sid obj c h1 nested hg hwf hread
  have hA := Heap.get_alloc_of_some h1 sid obj1 hwf1 hget1
  have hobj : obj2 = obj1 := by
    rw [hgetA] at hA
    exact Option.some.inj hA
  have hdata : obj2.data = obj.data ∨
      ∃ fv, obj2.data = assocSet obj.data c fv := by
    rcases readSegs_single_data_cases reg h sid obj c h1 nested hg hread
      with hc | ⟨fv, hc, _⟩
    · left
      rw [hc] at hget1
      rw [hg] at hget1
      rw [hobj, ← Option.some.inj hget1]
    · right
      refine ⟨fv, ?_⟩
      rw [hc] at hget1
      rw [Heap.get_set h sid _, hg, Option.map_some'] at hget1
      rw [hobj, ← Option.some.inj hget1]
  constructor
  · exact Heap.wf_set _ _ _ (Heap.wf_alloc h1 hwf1)
  · intro p hp e he
    rcases mem_set_objs _ _ _ p hp with hpc | ⟨hpc, hpne⟩
    · rw [hpc] at he
      rcases mem_assocSet _ _ _ e he with hec | ⟨hec, hecne⟩
      · rw [hec]; rfl
      · rcases hdata with hd | ⟨fv, hd⟩
        · rw [hd] at hec
          exact noRawObjData_get h hno sid obj hg e hec
        · rw [hd] at hec
          rcases mem_assocSet _ _ _ e hec with hec2 | ⟨hec2, _⟩
          · exact absurd (congrArg Prod.fst hec2) hecne
          · exact noRawObjData_get h hno sid obj hg e hec2
    · rcases mem_alloc_objs h1 p hpc with hpc2 | hpc2
      · rcases readSegs_single_data_cases reg h sid obj c h1 nested hg hread
          with hc | ⟨fv, hc, _⟩
        · rw [hc] at hpc2
          exact hno p hpc2 e he
        · rw [hc] at hpc2
          rcases mem_set_objs _ _ _ p hpc2 with hpc3 | ⟨hpc3, _⟩
          · exact absurd (congrArg Prod.fst hpc3) hpne
          · exact hno p hpc3 e he
      · rw [hpc2] at he
        simp [freshStoreObj] at he

theorem write_noRawObjData_aux (reg : Reg) :
    (∀ (h : Heap) (sid : Nat) (segs : List String) (v : SVal),
      h.wf → noRawObjData h →
        ((writeSegs reg h sid segs v).1.wf ∧
          noRawObjData (writeSegs reg h sid segs v).1)) ∧
    (∀ (h : Heap) (sid : Nat) (l : List (String × JVal)),
      h.wf → noRawObjData h →
        ((writeEntriesList reg h sid l).1.wf ∧
          noRawObjData (writeEntriesList reg h sid l).1)) := by
  refine writeSegs.mutual_induct reg
    (fun h sid segs v => h.wf → noRawObjData h →
      ((writeSegs reg h sid segs v).1.wf ∧
        noRawObjData (writeSegs reg h sid segs v).1))
    (fun h sid l => h.wf → noRawObjData h →
      ((writeEntriesList reg h sid l).1.wf ∧
        noRawObjData (writeEntriesList reg h sid l).1))
    ?_ ?_ ?_ ?_ ?_ ?_ ?_ ?_ ?_ ?_ ?_ ?_ ?_ ?_ ?_ ?_ ?_ ?_
  · intro h sid segs v hgn hwf hno
    rw [writeSegs_get_none reg h sid segs v hgn]
    exact ⟨hwf, hno⟩
  · intro h sid v obj hg hwf hno
    rw [writeSegs_nil reg h sid v obj hg]
    exact ⟨hwf, hno⟩
  · intro h sid v obj hg c r1 rs hguard hwf hno
    rw [writeSegs_cons_guard reg h sid obj c r1 rs v hg hguard]
    exact ⟨hwf, hno⟩
  · intro h sid v obj hg c r1 rs hguard h1 hread hwf hno
    rw [writeSegs_cons reg h sid obj c r1 rs v hg hguard]
    simp only [hread]
    have hh := readSegs_single_none reg h sid c h1 hread
    subst hh
    exact ⟨hwf, hno⟩
  · intro h sid v obj hg c r1 rs hguard h1 cid hread ih hwf hno
    rw [writeSegs_cons reg h sid obj c r1 rs v hg hguard]
    simp only [hread]
    obtain ⟨hwf1, obj1, hget1, _, _, _⟩ :=
      readSegs_single_preserves reg h sid obj c h1 (SVal.store cid) hg
        hwf hread
    have hno1 : noRawObjData h1 := by
      rcases readSegs_single_data_cases reg h sid obj c h1 (SVal.store cid)
          hg hread with hc | ⟨fv, hc, hfv⟩
      · rw [hc]; exact hno
      · subst hc
        apply noRawObjData_set h sid _ hno
        intro e he
        rcases mem_assocSet obj.data c fv e he with hee | ⟨hee, _⟩
        · rw [hee]
          cases fv <;> simp_all [SVal.isRawObj, SRes.toSVal]
        · exact noRawObjData_get h hno sid obj hg e hee
    exact ih hwf1 hno1
  · intro h sid v obj hg c r1 rs hguard h1 nested hread hgetn hnstore hwf hno
    obtain ⟨hwf1, obj1, hget1, _, _, _⟩ :=
      readSegs_single_preserves reg h sid obj c h1 nested hg hwf hread
    have hA := Heap.get_alloc_of_some h1 sid obj1 hwf1 hget1
    rw [hgetn] at hA
    exact Option.noConfusion hA
  · intro h sid v obj hg c r1 rs hguard h1 nested hread obj2 hgetA hnstore
      ih hwf hno
    rw [writeSegs_cons reg h sid obj c r1 rs v hg hguard]
    simp only [hread]
    have hstep := step_install_noRawObjData reg h sid obj c h1 nested obj2
      hg hwf hno hread hgetA (h1.alloc).2
    cases nested with
    | store cid => exact (hnstore cid rfl).elim
    | _ =>
      simp only [hgetA]
      exact ih hstep.1 hstep.2
  · intro h sid v obj hg c hguard hwf hno
    rw [writeSegs_leaf_guard reg h sid obj c v hg hguard]
    exact ⟨hwf, hno⟩
  · intro h sid obj hg c hguard o h2 val hwe hgetn ih hwf hno
    rw [writeSegs_leaf_obj reg h sid obj c o hg hguard]
    simp only [hwe, hgetn]
    have hih := ih (Heap.wf_alloc h hwf) (noRawObjData_alloc h hno)
    rw [hwe] at hih
    exact hih
  · intro h sid obj hg c hguard o h2 val hwe obj1 hget2 ih hwf hno
    rw [writeSegs_leaf_obj reg h sid obj c o hg hguard]
    simp only [hwe, hget2]
    have hih := ih (Heap.wf_alloc h hwf) (noRawObjData_alloc h hno)
    rw [hwe] at hih
    refine ⟨Heap.wf_set _ _ _ hih.1, ?_⟩
    apply noRawObjData_set h2 sid _ hih.2
    intro e he
    rcases mem_assocSet _ _ _ e he with hec | ⟨hec, _⟩
    · rw [hec]; rfl
    · exact noRawObjData_get h2 hih.2 sid obj1 hget2 e hec
  · intro h sid obj hg c hguard o h2 hwe ih hwf hno
    rw [writeSegs_leaf_obj reg h sid obj c o hg hguard]
    simp only [hwe]
    have hih := ih (Heap.wf_alloc h hwf) (noRawObjData_alloc h hno)
    rw [hwe] at hih
    exact hih
  · intro h sid v obj hg c hguard hvno hwf hno
    rw [writeSegs_leaf_plain reg h sid obj c v hg hguard
      (fun o ho => hvno o ho)]
    refine ⟨Heap.wf_set _ _ _ hwf, ?_⟩
    apply noRawObjData_set h sid _ hno
    intro e he
    rcases mem_assocSet _ _ _ e he with hec | ⟨hec, _⟩
    · rw [hec]
      cases v with
      | obj o => exact (hvno o rfl).elim
      | _ => rfl
    · exact noRawObjData_get h hno sid obj hg e hec
  · intro h sid hwf hno
    rw [writeEntriesList_nil]
    exact ⟨hwf, hno⟩
  · intro h sid fst rest o h2 val hw h2b val2 hwe ih1 ih2 ih3 hwf hno
    rw [writeEntriesList_cons_obj]
    simp only [hw, hwe]
    have h1w := ih1 (Heap.wf_alloc h hwf) (noRawObjData_alloc h hno)
    rw [hw] at h1w
    have h2w := ih2 h1w.1 h1w.2
    rw [hwe] at h2w
    exact ih3 h2w.1 h2w.2
  · intro h sid fst rest o h2 val hw h2b hwe ih1 ih2 hwf hno
    rw [writeEntriesList_cons_obj]
    simp only [hw, hwe]
    have h1w := ih1 (Heap.wf_alloc h hwf) (noRawObjData_alloc h hno)
    rw [hw] at h1w
    have h2w := ih2 h1w.1 h1w.2
    rw [hwe] at h2w
    exact h2w
  · intro h sid fst rest o h2 hw ih1 hwf hno
    rw [writeEntriesList_cons_obj]
    simp only [hw]
    have h1w := ih1 (Heap.wf_alloc h hwf) (noRawObjData_alloc h hno)
    rw [hw] at h1w
    exact h1w
  · intro h sid fst rest jvv hjv h2 val hw ih1 ih2 hwf hno
    rw [writeEntriesList_cons_plain reg h sid fst jvv rest
      (fun o ho => hjv o ho)]
    simp only [hw]
    have h1w := ih1 hwf hno
    rw [hw] at h1w
    exact ih2 h1w.1 h1w.2
  · intro h sid fst rest jvv hjv h2 hw ih1 hwf hno
    rw [writeEntriesList_cons_plain reg h sid fst jvv rest
      (fun o ho => hjv o ho)]
    simp only [hw]
    have h1w := ih1 hwf hno
    rw [hw] at h1w
    exact h1w

/-- C5: a successful leaf write of a plain structured value stores and
returns a newly created Store (the next allocated id, absent from the
pre-write heap) populated from the value's entries via the bulk-write
`writeEntries`, never the raw structured value; consequently, on a
well-formed heap whose `data` maps hold no raw plain object, no store's
`data` entry ever becomes a raw plain object through the path-write API
(`writeSegs`) or the bulk-write API (`writeEntriesList`). -/
theorem c5_promotion_invariant (reg : Reg) :
    (∀ (h : Heap) (sid : Nat) (obj : StoreObj) (k : String)
        (o : List (String × JVal)) (h2 : Heap) (res : SVal),
      h.get sid = some obj → h.wf →
      writeSegs reg h sid [k] (SVal.obj o) = (h2, some res) →
      res = SVal.store h.next ∧
      h.get h.next = Option.none ∧
      ∃ hmid obj1,
        writeEntriesList reg (Heap.alloc h).1 h.next o = (hmid, some ()) ∧
        hmid.get sid = some obj1 ∧
        h2 = hmid.set sid
          { obj1 with data := assocSet obj1.data k (SVal.store h.next) } ∧
        assocGet (assocSet obj1.data k (SVal.store h.next)) k =
          some (SVal.store h.next)) ∧
    (∀ (h : Heap) (sid : Nat) (segs : List String) (v : SVal),
      h.wf → noRawObjData h →
        noRawObjData (writeSegs reg h sid segs v).1) ∧
    (∀ (h : Heap) (sid : Nat) (l : List (String × JVal)),
      h.wf → noRawObjData h →
        noRawObjData (writeEntriesList reg h sid l).1) := by
  refine ⟨?_, fun h sid segs v hwf hno =>
      ((write_noRawObjData_aux reg).1 h sid segs v hwf hno).2,
    fun h sid l hwf hno =>
      ((write_noRawObjData_aux reg).2 h sid l hwf hno).2⟩
  intro h sid obj k o h2 res hg hwf hwrite
  by_cases hguard : (k = "" ∨ allowedToWrite reg obj k = false)
  · rw [writeSegs_leaf_guard reg h sid obj k _ hg hguard] at hwrite
    have := congrArg Prod.snd hwrite
    simp at this
  · rw [writeSegs_leaf_obj reg h sid obj k o hg hguard] at hwrite
    cases hwe : writeEntriesList reg (Heap.alloc h).1 (Heap.alloc h).2 o with
    | mk hmid r =>
      simp only [hwe] at hwrite
      cases r with
      | none =>
        have := congrArg Prod.snd hwrite
        simp at this
      | some u =>
        cases hget2 : hmid.get sid with
        | none =>
          simp only [hget2] at hwrite
          have := congrArg Prod.snd hwrite
          simp at this
        | some obj1 =>
          simp only [hget2] at hwrite
          cases u
          have hres : res = SVal.store (Heap.alloc h).2 := by
            have hh := congrArg Prod.snd hwrite
            simp only [Option.some.injEq] at hh
            exact hh.symm
          refine ⟨hres, Heap.get_next_eq_none h hwf,
            hmid, obj1, hwe, hget2, ?_,
            assocGet_assocSet_self obj1.data k (SVal.store h.next)⟩
          have hh := congrArg Prod.fst hwrite
          exact hh.symm

/-- C5 witness: writing the plain object `x ↦ 1` at key `k` of a fresh
store installs a freshly created store populated by bulk-write, not the
raw object. -/
theorem c5_promotion_invariant_witness :
    ∃ hmid obj1,
      writeEntriesList [] (Heap.alloc ⟨[(0, freshStoreObj)], 1⟩).1 1
          [("x", JVal.prim (Prim.int 1))] = (hmid, some ()) ∧
      hmid.get 0 = some obj1 ∧
      (⟨[(0, StoreObj.mk ["Store", ""] Permission.rw []
          [("k", SVal.store 1)]),
        (1, StoreObj.mk ["Store", ""] Permission.rw []
          [("x", SVal.prim (Prim.int 1))])], 2⟩ : Heap) =
        hmid.set 0
          { obj1 with data := assocSet obj1.data "k" (SVal.store 1) } ∧
      assocGet (assocSet obj1.data "k" (SVal.store 1)) "k" =
        some (SVal.store 1) := by
  have hcomp : writeSegs [] ⟨[(0, freshStoreObj)], 1⟩ 0 ["k"]
      (SVal.obj [("x", JVal.prim (Prim.int 1))]) =
      (⟨[(0, StoreObj.mk ["Store", ""] Permission.rw []
          [("k", SVal.store 1)]),
        (1, StoreObj.mk ["Store", ""] Permission.rw []
          [("x", SVal.prim (Prim.int 1))])], 2⟩,
       some (SVal.store 1)) := by
    rw [writeSegs_leaf_obj [] _ 0 freshStoreObj "k" _ (by decide) (by decide)]
    rw [writeEntriesList_cons_plain _ _ _ _ _ _
      (by intro o hco; exact JVal.noConfusion hco)]
    rw [show splitColon "x" = ["x"] from rfl]
    rw [writeSegs_leaf_plain _ _ _ freshStoreObj _ _ (by decide) (by decide)
      (by intro o hco; exact SVal.noConfusion hco)]
    simp only [writeEntriesList_nil]
    decide
  obtain ⟨hres, hnone, hmid, obj1, hwel, hget, heq, hassoc⟩ :=
    (c5_promotion_invariant []).1 ⟨[(0, freshStoreObj)], 1⟩ 0 freshStoreObj
      "k" [("x", JVal.prim (Prim.int 1))] _ _ (by decide) (by decide) hcomp
  exact ⟨hmid, obj1, hwel, hget, heq, hassoc⟩

/-! Claim C1: the write/read round trip. -/

/-- A heap of plain stores: no instance fields anywhere (so the
instance-field fallback of `read` never fires). -/
def noFields (h : Heap) : Prop := ∀ p ∈ h.objs, p.2.fields = []

instance (h : Heap) : Decidable (noFields h) := List.decidableBAll _ h.objs

/-- A value that survives a round trip syntactically: not a plain object
(those are promoted to stores) and not a function (those are invoked on
read). -/
def plainVal : SVal → Bool
  | .obj _ => false
  | .fn _ => false
  | _ => true

/-- The write traversal visits pairwise distinct stores: `seen` collects
the stores already visited above the current one.  The constructors
mirror the three ways `write` steps through a multi-segment path. -/
inductive WritePathOk (reg : Reg) :
    List Nat → Heap → Nat → List String → Prop where
  | leaf (seen : List Nat) (h : Heap) (sid : Nat) (k : String) :
      sid ∉ seen → WritePathOk reg seen h sid [k]
  | viaStore (seen : List Nat) (h : Heap) (sid : Nat) (k r1 : String)
      (rs : List String) (cid : Nat) :
      sid ∉ seen →
      readSegs reg h sid [k] = (h, some (SVal.store cid)) →
      WritePathOk reg (sid :: seen) h cid (r1 :: rs) →
      WritePathOk reg seen h sid (k :: r1 :: rs)
  | viaFresh (seen : List Nat) (h : Heap) (sid : Nat) (k r1 : String)
      (rs : List String) (nv : SVal) (obj1 : StoreObj) :
      sid ∉ seen →
      readSegs reg h sid [k] = (h, some nv) →
      (∀ cid, nv ≠ SVal.store cid) →
      (Heap.alloc h).1.get sid = some obj1 →
      WritePathOk reg (sid :: seen)
        ((Heap.alloc h).1.set sid
          { obj1 with
            data := assocSet obj1.data k (SVal.store (Heap.alloc h).2) })
        (Heap.alloc h).2 (r1 :: rs) →
      WritePathOk reg seen h sid (k :: r1 :: rs)

theorem noFields_get (h : Heap) (hnf : noFields h) (i : Nat)
    (obj : StoreObj) (hg : h.get i = some obj) : obj.fields = [] := by
  unfold Heap.get at hg
  cases hf : h.objs.find? (fun e => e.1 == i) with
  | none => rw [hf] at hg; exact Option.noConfusion hg
  | some p =>
    rw [hf] at hg
    simp only [Option.map_some', Option.some.injEq] at hg
    have hmem := List.mem_of_find?_eq_some hf
    rw [← hg]
    exact hnf p hmem

theorem noFields_set (h : Heap) (i : Nat) (o : StoreObj)
    (hnf : noFields h) (ho : o.fields = []) : noFields (h.set i o) := by
  intro p hp
  rcases mem_set_objs h i o p hp with hc | ⟨hc, _⟩
  · rw [hc]; exact ho
  · exact hnf p hc

theorem noFields_alloc (h : Heap) (hnf : noFields h) :
    noFields (h.alloc).1 := by
  intro p hp
  rcases mem_alloc_objs h p hp with hc | hc
  · exact hnf p hc
  · rw [hc]; rfl

theorem resolveKey_of_fields_nil (h : Heap) (sid : Nat) (obj : StoreObj)
    (k : String) (hf : obj.fields = []) :
    resolveKey h sid obj k =
      (h, match (assocGet obj.data k).getD SVal.undefined with
        | SVal.fn r => r.toSVal | v => v) := by
  simp only [resolveKey, hf]
  by_cases ht : (((assocGet obj.data k).getD SVal.undefined).truthy = false)
  · rw [if_pos ht]
    have hnone : assocGet ([] : List (String × SVal)) k = Option.none := rfl
    rw [hnone]
    cases hval : (assocGet obj.data k).getD SVal.undefined <;> simp [hval]
  · rw [if_neg ht]
    cases hval : (assocGet obj.data k).getD SVal.undefined <;> simp [hval]

theorem readSegs_fst_noFields (reg : Reg) :
    ∀ (segs : List String) (h : Heap) (sid : Nat), noFields h →
      (readSegs reg h sid segs).1 = h := by
  intro segs
  induction segs with
  | nil =>
    intro h sid hnf
    cases hg : h.get sid with
    | none => rw [readSegs_get_none reg h sid [] hg]
    | some obj => rw [readSegs, hg]
  | cons k rest ih =>
    intro h sid hnf
    cases hg : h.get sid with
    | none => rw [readSegs_get_none reg h sid (k :: rest) hg]
    | some obj =>
      by_cases hguard : (k = "" ∨ allowedToRead reg obj k = false)
      · rw [readSegs_guard_none reg h sid obj k rest hg hguard]
      · rw [readSegs_cons reg h sid obj k rest hg hguard]
        rw [resolveKey_of_fields_nil h sid obj k (noFields_get h hnf sid obj hg)]
        cases hval : (match (assocGet obj.data k).getD SVal.undefined with
            | SVal.fn r => r.toSVal | v => v) with
        | store cid =>
          cases rest with
          | nil => rfl
          | cons r rs => exact ih h cid hnf
        | _ => cases rest <;> rfl

theorem readSegs_noFields_eq (reg : Reg) (segs : List String) (h : Heap)
    (sid : Nat) (hnf : noFields h) :
    readSegs reg h sid segs = (h, (readSegs reg h sid segs).2) := by
  have h1 := readSegs_fst_noFields reg segs h sid hnf
  cases hr : readSegs reg h sid segs with
  | mk a b =>
    rw [hr] at h1
    simp only at h1
    rw [h1]

theorem readSegs_single_some_inv (reg : Reg) (h : Heap) (sid : Nat)
    (k : String) (h1 : Heap) (nv : SVal)
    (hread : readSegs reg h sid [k] = (h1, some nv)) :
    ∃ obj, h.get sid = some obj ∧
      ¬(k = "" ∨ allowedToRead reg obj k = false) := by
  cases hg : h.get sid with
  | none =>
    rw [readSegs_get_none reg h sid [k] hg] at hread
    have := congrArg Prod.snd hread
    simp at this
  | some obj =>
    by_cases hguard : (k = "" ∨ allowedToRead reg obj k = false)
    · rw [readSegs_guard_none reg h sid obj k [] hg hguard] at hread
      have := congrArg Prod.snd hread
      simp at this
    · exact ⟨obj, rfl, hguard⟩

theorem writeSegs_result_plain (reg : Reg) :
    ∀ (segs : List String) (h : Heap) (sid : Nat) (v : SVal) (h2 : Heap)
      (res : SVal), (∀ o, v ≠ SVal.obj o) →
      writeSegs reg h sid segs v = (h2, some res) → res = v := by
  intro segs
  induction segs with
  | nil =>
    intro h sid v h2 res hv hw
    cases hg : h.get sid with
    | none =>
      rw [writeSegs_get_none reg h sid [] v hg] at hw
      have := congrArg Prod.snd hw
      simp at this
    | some obj =>
      rw [writeSegs_nil reg h sid v obj hg] at hw
      have := congrArg Prod.snd hw
      simp at this
  | cons k rest ih =>
    intro h sid v h2 res hv hw
    cases hg : h.get sid with
    | none =>
      rw [writeSegs_get_none reg h sid (k :: rest) v hg] at hw
      have := congrArg Prod.snd hw
      simp at this
    | some obj =>
      cases rest with
      | nil =>
        by_cases hguard : (k = "" ∨ allowedToWrite reg obj k = false)
        · rw [writeSegs_leaf_guard reg h sid obj k v hg hguard] at hw
          have := congrArg Prod.snd hw
          simp at this
        · rw [writeSegs_leaf_plain reg h sid obj k v hg hguard hv] at hw
          have := congrArg Prod.snd hw
          simp only [Option.some.injEq] at this
          exact this.symm
      | cons r1 rs =>
        by_cases hguard : (k = "" ∨ allowedToRead reg obj k = false)
        · rw [writeSegs_cons_guard reg h sid obj k r1 rs v hg hguard] at hw
          have := congrArg Prod.snd hw
          simp at this
        · rw [writeSegs_cons reg h sid obj k r1 rs v hg hguard] at hw
          cases hread : readSegs reg h sid [k] with
          | mk h1 ro =>
            simp only [hread] at hw
            cases ro with
            | none =>
              have := congrArg Prod.snd hw
              simp at this
            | some nested =>
              cases nested with
              | store cid => exact ih h1 cid v h2 res hv hw
              | _ =>
                cases hga : (Heap.alloc h1).1.get sid with
                | none =>
                  simp only [hga] at hw
                  have := congrArg Prod.snd hw
                  simp at this
                | some obj1 =>
                  simp only [hga] at hw
                  exact ih _ _ v h2 res hv hw

theorem writeSegs_frame (reg : Reg) :
    ∀ (segs : List String) (seen : List Nat) (h : Heap) (sid : Nat)
      (v : SVal), noFields h → h.wf → plainVal v = true →
      (∀ id ∈ seen, (h.get id).isSome) →
      WritePathOk reg seen h sid segs →
      ∀ id ∈ seen,
        (writeSegs reg h sid segs v).1.get id = h.get id := by
  intro segs
  induction segs with
  | nil =>
    intro seen h sid v hnf hwf hpv hsome hwpo
    cases hwpo
  | cons k rest ih =>
    intro seen h sid v hnf hwf hpv hsome hwpo id hid
    cases hwpo with
    | leaf _ _ _ _ hnotin =>
      cases hg : h.get sid with
      | none => rw [writeSegs_get_none reg h sid [k] v hg]
      | some obj =>
        by_cases hguard : (k = "" ∨ allowedToWrite reg obj k = false)
        · rw [writeSegs_leaf_guard reg h sid obj k v hg hguard]
        · have hvno : ∀ o, v ≠ SVal.obj o := by
            intro o hco
            rw [hco] at hpv
            simp [plainVal] at hpv
          rw [writeSegs_leaf_plain reg h sid obj k v hg hguard hvno]
          exact Heap.get_set_ne h sid id _ (fun he => hnotin (he ▸ hid))
    | viaStore _ _ _ _ r1 rs cid hnotin hread0 hwpo2 =>
      obtain ⟨obj, hg, hguard⟩ :=
        readSegs_single_some_inv reg h sid k h (SVal.store cid) hread0
      rw [writeSegs_cons reg h sid obj k r1 rs v hg hguard]
      simp only [hread0]
      have hsome2 : ∀ id2 ∈ sid :: seen, (h.get id2).isSome := by
        intro id2 hid2
        rcases List.mem_cons.mp hid2 with hc | hc
        · rw [hc, hg]; rfl
        · exact hsome id2 hc
      exact ih (sid :: seen) h cid v hnf hwf hpv hsome2 hwpo2 id
        (List.mem_cons_of_mem sid hid)
    | viaFresh _ _ _ _ r1 rs nv obj1 hnotin hread0 hnv hgetA hwpo2 =>
      obtain ⟨obj, hg, hguard⟩ :=
        readSegs_single_some_inv reg h sid k h nv hread0
      rw [writeSegs_cons reg h sid obj k r1 rs v hg hguard]
      simp only [hread0]
      have hobjf : obj1.fields = [] :=
        noFields_get _ (noFields_alloc h hnf) sid obj1 hgetA
      have hnf3 : noFields ((Heap.alloc h).1.set sid
          { obj1 with
            data := assocSet obj1.data k (SVal.store (Heap.alloc h).2) }) :=
        noFields_set _ _ _ (noFields_alloc h hnf) hobjf
      have hwf3 : ((Heap.alloc h).1.set sid
          { obj1 with
            data := assocSet obj1.data k (SVal.store (Heap.alloc h).2) }).wf :=
        Heap.wf_set _ _ _ (Heap.wf_alloc h hwf)
      have hsome3 : ∀ id2 ∈ sid :: seen,
          (((Heap.alloc h).1.set sid
            { obj1 with
              data := assocSet obj1.data k
                (SVal.store (Heap.alloc h).2) }).get id2).isSome := by
        intro id2 hid2
        rcases List.mem_cons.mp hid2 with hc | hc
        · rw [hc, Heap.get_set _ sid _, hgetA]; rfl
        · have hne : id2 ≠ sid := by
            intro he
            exact hnotin (he ▸ hc)
          rw [Heap.get_set_ne _ sid id2 _ hne]
          obtain ⟨obj2, hobj2⟩ :=
            Option.isSome_iff_exists.mp (hsome id2 hc)
          rw [Heap.get_alloc_of_some h id2 obj2 hwf hobj2]
          rfl
      have hstep := ih (sid :: seen) _ (Heap.alloc h).2 v hnf3 hwf3 hpv
        hsome3 hwpo2 id (List.mem_cons_of_mem sid hid)
      cases nv with
      | store cid => exact (hnv cid rfl).elim
      | _ =>
        simp only [hgetA]
        rw [hstep]
        have hidne : id ≠ sid := fun he => hnotin (he ▸ hid)
        rw [Heap.get_set_ne _ sid id _ hidne]
        obtain ⟨obj2, hobj2⟩ := Option.isSome_iff_exists.mp (hsome id hid)
        rw [Heap.get_alloc_of_some h id obj2 hwf hobj2, hobj2]

theorem roundtrip_aux (reg : Reg) :
    ∀ (segs : List String) (seen : List Nat) (h : Heap) (sid : Nat)
      (v : SVal) (h2 : Heap) (res : SVal),
      noFields h → h.wf → plainVal v = true →
      (∀ id ∈ seen, (h.get id).isSome) →
      WritePathOk reg seen h sid segs →
      writeSegs reg h sid segs v = (h2, some res) →
      (readSegs reg h2 sid segs).2 = some res ∨
        (readSegs reg h2 sid segs).2 = Option.none := by
  intro segs
  induction segs with
  | nil =>
    intro seen h sid v h2 res hnf hwf hpv hsome hwpo hwrite
    cases hwpo
  | cons k rest ih =>
    intro seen h sid v h2 res hnf hwf hpv hsome hwpo hwrite
    cases hwpo with
    | leaf _ _ _ _ hnotin =>
      cases hg : h.get sid with
      | none =>
        rw [writeSegs_get_none reg h sid [k] v hg] at hwrite
        have := congrArg Prod.snd hwrite
        simp at this
      | some obj =>
        by_cases hguard : (k = "" ∨ allowedToWrite reg obj k = false)
        · rw [writeSegs_leaf_guard reg h sid obj k v hg hguard] at hwrite
          have := congrArg Prod.snd hwrite
          simp at this
        · have hvno : ∀ o, v ≠ SVal.obj o := by
            intro o hco
            rw [hco] at hpv
            simp [plainVal] at hpv
          have hvfn : ∀ r, v ≠ SVal.fn r := by
            intro r hco
            rw [hco] at hpv
            simp [plainVal] at hpv
          rw [writeSegs_leaf_plain reg h sid obj k v hg hguard hvno]
            at hwrite
          have hh2 : h.set sid { obj with data := assocSet obj.data k v } =
              h2 := congrArg Prod.fst hwrite
          have hres : res = v := by
            have := congrArg Prod.snd hwrite
            simp only [Option.some.injEq] at this
            exact this.symm
          have hk : k ≠ "" := by
            intro hc
            exact hguard (Or.inl hc)
          have hg2 : h2.get sid =
              some { obj with data := assocSet obj.data k v } := by
            rw [← hh2, Heap.get_set h sid _, hg, Option.map_some']
          by_cases hread :
              allowedToRead reg { obj with data := assocSet obj.data k v } k
                = false
          · right
            rw [readSegs_guard_none reg h2 sid _ k [] hg2 (Or.inr hread)]
          · left
            have hguard2 : ¬(k = "" ∨
                allowedToRead reg
                  { obj with data := assocSet obj.data k v } k = false) := by
              rintro (hc | hc)
              · exact hk hc
              · exact hread hc
            rw [readSegs_single reg h2 sid _ k hg2 hguard2]
            have hf : ({ obj with data := assocSet obj.data k v } :
                StoreObj).fields = [] := noFields_get h hnf sid obj hg
            rw [resolveKey_of_fields_nil h2 sid _ k hf]
            simp only [assocGet_assocSet_self obj.data k v,
              Option.getD_some, hres]
    | viaStore _ _ _ _ r1 rs cid hnotin hread0 hwpo2 =>
      obtain ⟨obj, hg, hguard⟩ :=
        readSegs_single_some_inv reg h sid k h (SVal.store cid) hread0
      rw [writeSegs_cons reg h sid obj k r1 rs v hg hguard] at hwrite
      simp only [hread0] at hwrite
      have hsome2 : ∀ id2 ∈ sid :: seen, (h.get id2).isSome := by
        intro id2 hid2
        rcases List.mem_cons.mp hid2 with hc | hc
        · rw [hc, hg]; rfl
        · exact hsome id2 hc
      have hframe := writeSegs_frame reg (r1 :: rs) (sid :: seen) h cid v
        hnf hwf hpv hsome2 hwpo2 sid (List.mem_cons_self sid seen)
      rw [hwrite] at hframe
      have hg2 : h2.get sid = some obj := by
        simp only at hframe
        rw [hframe, hg]
      have hf : obj.fields = [] := noFields_get h hnf sid obj hg
      have hX : (resolveKey h sid obj k).2 = SVal.store cid := by
        rw [readSegs_single reg h sid obj k hg hguard] at hread0
        have := congrArg Prod.snd hread0
        simpa using this
      have hX2 : (resolveKey h2 sid obj k).2 = SVal.store cid := by
        rw [congrArg Prod.snd (resolveKey_of_fields_nil h2 sid obj k hf)]
        rw [← congrArg Prod.snd (resolveKey_of_fields_nil h sid obj k hf)]
        exact hX
      have hfst : (resolveKey h2 sid obj k).1 = h2 :=
        congrArg Prod.fst (resolveKey_of_fields_nil h2 sid obj k hf)
      rw [readSegs_cons reg h2 sid obj k (r1 :: rs) hg2 hguard]
      simp only [hX2, hfst]
      exact ih (sid :: seen) h cid v h2 res hnf hwf hpv hsome2 hwpo2 hwrite
    | viaFresh _ _ _ _ r1 rs nv obj1 hnotin hread0 hnv hgetA hwpo2 =>
      obtain ⟨obj, hg, hguard⟩ :=
        readSegs_single_some_inv reg h sid k h nv hread0
      have hobj1 : obj1 = obj := by
        have hA := Heap.get_alloc_of_some h sid obj hwf hg
        rw [hgetA] at hA
        exact Option.some.inj hA
      subst hobj1
      rw [writeSegs_cons reg h sid _ k r1 rs v hg hguard] at hwrite
      simp only [hread0] at hwrite
      have hobjf : (obj1 : StoreObj).fields = [] :=
        noFields_get h hnf sid _ hg
      have hnf3 : noFields ((Heap.alloc h).1.set sid
          { obj1 with
            data := assocSet obj1.data k (SVal.store (Heap.alloc h).2) }) :=
        noFields_set _ _ _ (noFields_alloc h hnf) hobjf
      have hwf3 : ((Heap.alloc h).1.set sid
          { obj1 with
            data := assocSet obj1.data k (SVal.store (Heap.alloc h).2) }).wf :=
        Heap.wf_set _ _ _ (Heap.wf_alloc h hwf)
      have hsome3 : ∀ id2 ∈ sid :: seen,
          (((Heap.alloc h).1.set sid
            { obj1 with
              data := assocSet obj1.data k
                (SVal.store (Heap.alloc h).2) }).get id2).isSome := by
        intro id2 hid2
        rcases List.mem_cons.mp hid2 with hc | hc
        · rw [hc, Heap.get_set _ sid _, hgetA]; rfl
        · have hne : id2 ≠ sid := fun he => hnotin (he ▸ hc)
          rw [Heap.get_set_ne _ sid id2 _ hne]
          obtain ⟨obj2, hobj2⟩ :=
            Option.isSome_iff_exists.mp (hsome id2 hc)
          rw [Heap.get_alloc_of_some h id2 obj2 hwf hobj2]
          rfl
      cases nv with
      | store cid => exact (hnv cid rfl).elim
      | _ =>
        simp only [hgetA] at hwrite
        have hframe := writeSegs_frame reg (r1 :: rs) (sid :: seen) _
          (Heap.alloc h).2 v hnf3 hwf3 hpv hsome3 hwpo2 sid
          (List.mem_cons_self sid seen)
        rw [hwrite] at hframe
        have hg2 : h2.get sid = some { obj1 with
            data := assocSet obj1.data k (SVal.store (Heap.alloc h).2) } := by
          simp only at hframe
          rw [hframe, Heap.get_set _ sid _, hgetA, Option.map_some']
        have hguard2 : ¬(k = "" ∨
            allowedToRead reg { obj1 with
              data := assocSet obj1.data k
                (SVal.store (Heap.alloc h).2) } k = false) := hguard
        rw [readSegs_cons reg h2 sid _ k (r1 :: rs) hg2 hguard2]
        have hfW : ({ obj1 with
            data := assocSet obj1.data k (SVal.store (Heap.alloc h).2) } :
              StoreObj).fields = [] := hobjf
        have hrk := resolveKey_of_fields_nil h2 sid
          { obj1 with
            data := assocSet obj1.data k (SVal.store (Heap.alloc h).2) }
          k hfW
        have hX2 : (resolveKey h2 sid
            { obj1 with
              data := assocSet obj1.data k
                (SVal.store (Heap.alloc h).2) } k).2 =
            SVal.store (Heap.alloc h).2 := by
          rw [congrArg Prod.snd hrk]
          simp only [assocGet_assocSet_self obj1.data k
            (SVal.store (Heap.alloc h).2), Option.getD_some]
        have hfst : (resolveKey h2 sid
            { obj1 with
              data := assocSet obj1.data k
                (SVal.store (Heap.alloc h).2) } k).1 = h2 :=
          congrArg Prod.fst hrk
        simp only [hX2, hfst]
        exact ih (sid :: seen) _ (Heap.alloc h).2 v h2 res hnf3 hwf3 hpv
          hsome3 hwpo2 hwrite

/-- C1 counterexample: on a `UserStore`-like store exposing the instance
field `name = "John Doe"`, writing the (falsy) primitive `""` at path
`name` succeeds and returns `""`, yet the immediate read returns
`"John Doe"`: the claim fails as stated even though every segment passes
the permission checks and the value is a primitive. -/
theorem c1_counterexample :
    writeSegs [] ⟨[(0, StoreObj.mk ["UserStore", "Store", ""] Permission.rw
        [("name", SVal.prim (Prim.str "John Doe"))] [])], 1⟩ 0 ["name"]
      (SVal.prim (Prim.str "")) =
      (⟨[(0, StoreObj.mk ["UserStore", "Store", ""] Permission.rw
        [("name", SVal.prim (Prim.str "John Doe"))]
        [("name", SVal.prim (Prim.str ""))])], 1⟩,
       some (SVal.prim (Prim.str ""))) ∧
    (readSegs [] ⟨[(0, StoreObj.mk ["UserStore", "Store", ""] Permission.rw
        [("name", SVal.prim (Prim.str "John Doe"))]
        [("name", SVal.prim (Prim.str ""))])], 1⟩ 0 ["name"]).2 =
      some (SVal.prim (Prim.str "John Doe")) ∧
    SVal.prim (Prim.str "John Doe") ≠ SVal.prim (Prim.str "") := by
  refine ⟨?_, by decide, by decide⟩
  rw [writeSegs_leaf_plain [] _ 0
    (StoreObj.mk ["UserStore", "Store", ""] Permission.rw
      [("name", SVal.prim (Prim.str "John Doe"))] []) "name" _
    (by decide) (by decide) (by intro o hco; exact SVal.noConfusion hco)]
  decide

/-- C1 (amended): on a heap of plain stores (no instance fields, so the
falsiness-triggered field fallback cannot shadow a stored value), for a
write whose traversal visits pairwise distinct stores, a value that is
neither a plain object nor a function, and a read that does not throw,
`write(p, v)` immediately followed by `read(p)` returns exactly the
value written (which is also `write`'s result). -/
theorem c1_write_read_roundtrip (reg : Reg) (h : Heap) (sid : Nat)
    (segs : List String) (v : SVal) (h2 : Heap) (res : SVal)
    (hnf : noFields h) (hwf : h.wf) (hpv : plainVal v = true)
    (hwpo : WritePathOk reg [] h sid segs)
    (hwrite : writeSegs reg h sid segs v = (h2, some res))
    (hread : (readSegs reg h2 sid segs).2 ≠ Option.none) :
    (readSegs reg h2 sid segs).2 = some v ∧ res = v := by
  have hvno : ∀ o, v ≠ SVal.obj o := by
    intro o hco
    rw [hco] at hpv
    simp [plainVal] at hpv
  have hres := writeSegs_result_plain reg segs h sid v h2 res hvno hwrite
  rcases roundtrip_aux reg segs [] h sid v h2 res hnf hwf hpv
      (by intro id hid; cases hid) hwpo hwrite with hc | hc
  · exact ⟨hres ▸ hc, hres⟩
  · exact absurd hc hread

/-- C1 witness: writing `7` at `a:b` on a fresh store, then reading
`a:b`, returns `7`; the intermediate node at `a` reads as a Store. -/
theorem c1_write_read_roundtrip_witness :
    (readSegs []
        ⟨[(0, StoreObj.mk ["Store", ""] Permission.rw []
            [("a", SVal.store 1)]),
          (1, StoreObj.mk ["Store", ""] Permission.rw []
            [("b", SVal.prim (Prim.int 7))])], 2⟩
        0 ["a", "b"]).2 = some (SVal.prim (Prim.int 7)) ∧
    SVal.prim (Prim.int 7) = SVal.prim (Prim.int 7) ∧
    (readSegs []
        ⟨[(0, StoreObj.mk ["Store", ""] Permission.rw []
            [("a", SVal.store 1)]),
          (1, StoreObj.mk ["Store", ""] Permission.rw []
            [("b", SVal.prim (Prim.int 7))])], 2⟩
        0 ["a"]).2 = some (SVal.store 1) := by
  have hwrite : writeSegs [] ⟨[(0, freshStoreObj)], 1⟩ 0 ["a", "b"]
      (SVal.prim (Prim.int 7)) =
      (⟨[(0, StoreObj.mk ["Store", ""] Permission.rw []
          [("a", SVal.store 1)]),
        (1, StoreObj.mk ["Store", ""] Permission.rw []
          [("b", SVal.prim (Prim.int 7))])], 2⟩,
       some (SVal.prim (Prim.int 7))) := by
    rw [writeSegs_cons [] _ 0 freshStoreObj "a" "b" [] _ (by decide)
      (by decide)]
    rw [show readSegs [] ⟨[(0, freshStoreObj)], 1⟩ 0 ["a"] =
      ((⟨[(0, freshStoreObj)], 1⟩ : Heap), some SVal.undefined) from by decide]
    simp only [show (Heap.alloc ⟨[(0, freshStoreObj)], 1⟩).1.get 0 =
      some freshStoreObj from by decide]
    show writeSegs []
      (⟨[(0, StoreObj.mk ["Store", ""] Permission.rw []
          [("a", SVal.store 1)]), (1, freshStoreObj)], 2⟩ : Heap)
      1 ["b"] (SVal.prim (Prim.int 7)) = _
    rw [writeSegs_leaf_plain [] _ 1 freshStoreObj "b" _ (by decide)
      (by decide) (by intro o hco; exact SVal.noConfusion hco)]
    decide
  have hwpo : WritePathOk [] [] ⟨[(0, freshStoreObj)], 1⟩ 0 ["a", "b"] :=
    WritePathOk.viaFresh [] ⟨[(0, freshStoreObj)], 1⟩ 0 "a" "b" []
      SVal.undefined freshStoreObj (by simp) (by decide)
      (by intro cid hco; exact SVal.noConfusion hco) (by decide)
      (WritePathOk.leaf [0] _ 1 "b" (by simp))
  have happ := c1_write_read_roundtrip [] ⟨[(0, freshStoreObj)], 1⟩ 0
    ["a", "b"] (SVal.prim (Prim.int 7)) _ _ (by decide) (by decide)
    (by decide) hwpo hwrite (by decide)
  exact ⟨happ.1, rfl, by decide⟩

end StoreSpec